import Mathlib

/-!
# mindmap: a verification development

Shallow embedding of `src/main.cpp` (a viewer for VUE mind-map exports) and
theorems about its parser, canvas build, position synchronisation and zoom.

Modelling conventions
* `qreal` / `double` values are exact rationals (`ℚ`); rounding is not modelled.
* `int` and `int64_t` values are mathematical integers (`Int`): every id in the
  program comes out of `QString::toInt`, so no arithmetic on them can overflow.
* `QString` is `String`, `QByteArray` is a list of byte values.
* `Node*` is an address (`Nat`) into a store of `Node` objects; `Link*` objects
  are only ever reached through `Canvas::links`, so the vector holds them by
  value.
* Qt library functions (`QString::toInt`, `QByteArray::indexOf`,
  `QGraphicsRectItem::boundingRect`, ...) are modelled after their documented
  behaviour; the XML parser `QDomDocument::setContent` is not modelled, the DOM
  tree is taken as given.
-/

namespace Mindmap

/-! ## Geometry (the parts of QPointF, QRectF, QLineF that the program uses) -/

/-- `QPointF`. -/
structure QPointF where
  x : ℚ
  y : ℚ
deriving DecidableEq, Repr

/-- `QPointF operator+`. -/
def QPointF.add (a b : QPointF) : QPointF := ⟨a.x + b.x, a.y + b.y⟩

instance : Add QPointF := ⟨QPointF.add⟩

/-- `QRectF`: top-left corner, width, height. -/
structure QRectF where
  x : ℚ := 0
  y : ℚ := 0
  width : ℚ := 0
  height : ℚ := 0
deriving DecidableEq, Repr

/-- `QRectF::center()`. -/
def QRectF.center (r : QRectF) : QPointF := ⟨r.x + r.width / 2, r.y + r.height / 2⟩

/-- `QRectF::adjusted(dx1, dy1, dx2, dy2)`. -/
def QRectF.adjusted (r : QRectF) (dx1 dy1 dx2 dy2 : ℚ) : QRectF :=
  ⟨r.x + dx1, r.y + dy1, r.width - dx1 + dx2, r.height - dy1 + dy2⟩

/-- `QLineF`. -/
structure QLineF where
  p1 : QPointF
  p2 : QPointF
deriving DecidableEq, Repr

/-- `QLineF::setP1`. -/
def QLineF.setP1 (l : QLineF) (p : QPointF) : QLineF := { l with p1 := p }

/-- `QLineF::setP2`. -/
def QLineF.setP2 (l : QLineF) (p : QPointF) : QLineF := { l with p2 := p }

/-! ## Records produced by the parser -/

/-- `struct NodeInfo`. -/
structure NodeInfo where
  id : Int := 0
  rect : QRectF := {}
  label : String := ""
deriving DecidableEq, Repr

/-- `struct LinkInfo`. -/
structure LinkInfo where
  from_ : Int := 0
  to_ : Int := 0
deriving DecidableEq, Repr

/-- `using VueElement = std::variant<NodeInfo, LinkInfo>`. -/
inductive VueElement where
  | node (n : NodeInfo)
  | link (l : LinkInfo)
deriving DecidableEq, Repr

/-! ## Live entities -/

/-- `struct Link`: the two ids are `const`, the line is the mutable geometry. -/
structure Link where
  line : QLineF
  from_ : Int
  to_ : Int
deriving DecidableEq, Repr

/-- `Link::Link(x1, y1, x2, y2, from, to)`. -/
def Link.new (x1 y1 x2 y2 : ℚ) (from_ to_ : Int) : Link :=
  { line := ⟨⟨x1, y1⟩, ⟨x2, y2⟩⟩, from_ := from_, to_ := to_ }

/-- `QGraphicsLineItem::setLine`. -/
def Link.setLine (l : Link) (line : QLineF) : Link := { l with line := line }

/-- `struct Node`: `rect` is the item rectangle `{0, 0, width, height}` handed to
`QGraphicsRectItem`, `text` the label of the child text item, `pos` the item
position (`QGraphicsItem::pos`). A Node has no parent item and no
transformation, so its scene position is `pos`. -/
structure Node where
  id : Int
  rect : QRectF
  text : String
  pos : QPointF
deriving DecidableEq, Repr

/-- `Node::Node(i, rect, text, c)`; a fresh item sits at the origin. -/
def Node.new (i : Int) (rect : QRectF) (text : String) : Node :=
  { id := i, rect := { x := 0, y := 0, width := rect.width, height := rect.height },
    text := text, pos := ⟨0, 0⟩ }

/-- Half of the pen width: the constructor sets `QPen(QColor(Qt::black))`, a solid
pen of width 1. -/
def Node.halfPenWidth : ℚ := 1 / 2

/-- `QGraphicsRectItem::boundingRect()`: the item rectangle grown by half the pen
width on every side. -/
def Node.boundingRect (n : Node) : QRectF :=
  n.rect.adjusted (-Node.halfPenWidth) (-Node.halfPenWidth) Node.halfPenWidth Node.halfPenWidth

/-- `QGraphicsItem::mapToScene` for an item without parent or transformation. -/
def Node.mapToScene (n : Node) (p : QPointF) : QPointF := n.pos + p

/-- The values of `QGraphicsItem::GraphicsItemChange` that a movable, selectable
item with `ItemSendsScenePositionChanges` receives. -/
inductive GraphicsItemChange where
  | ItemPositionChange
  | ItemPositionHasChanged
  | ItemSelectedChange
  | ItemSelectedHasChanged
  | ItemSceneChange
  | ItemSceneHasChanged
  | ItemScenePositionHasChanged
deriving DecidableEq, Repr

/-- The body of the loop of `Node::itemChange`, for one link. -/
def Node.syncLink (n : Node) (value : QPointF) (link : Link) : Link :=
  if link.from_ = n.id then
    link.setLine (link.line.setP1 (value + n.boundingRect.center))
  else if link.to_ = n.id then
    link.setLine (link.line.setP2 (value + n.boundingRect.center))
  else
    link

/-- `Node::itemChange(change, value)`: its effect on `canvas.links` (the return
value is the base class's and does not touch the canvas). -/
def Node.itemChange (n : Node) (links : List Link) (change : GraphicsItemChange)
    (value : QPointF) : List Link :=
  if change = GraphicsItemChange.ItemScenePositionHasChanged then
    links.map (n.syncLink value)
  else
    links

/-! ## QString helpers -/

/-- `QString::isEmpty()`. -/
def isEmpty (s : String) : Bool := s.length == 0

/-- `QChar::isSpace()` on the characters that occur in practice: the ASCII
controls 9 to 13, the space, NEL and the no-break space. -/
def isSpace (c : Char) : Bool :=
  (9 ≤ c.toNat && c.toNat ≤ 13) || c.toNat == 32 || c.toNat == 133 || c.toNat == 160

/-- `QString::trimmed()` on the list of characters. -/
def trimmed (cs : List Char) : List Char :=
  ((cs.dropWhile isSpace).reverse.dropWhile isSpace).reverse

/-- Value of a decimal digit character, if it is one. -/
def digitValue (c : Char) : Option Nat :=
  if 48 ≤ c.toNat ∧ c.toNat ≤ 57 then some (c.toNat - 48) else none

/-- A non-empty run of decimal digits read as a natural number; `acc` is the
value of the digits already read. -/
def digitsValue : List Char → Nat → Option Nat
  | [], _ => none
  | [c], acc => (digitValue c).map (fun d => 10 * acc + d)
  | c :: c2 :: cs, acc =>
    match digitValue c with
    | some d => digitsValue (c2 :: cs) (10 * acc + d)
    | none => none

/-- An optional sign followed by the rest: the sign as a factor. -/
def splitSign : List Char → Int × List Char
  | '-' :: cs => (-1, cs)
  | '+' :: cs => (1, cs)
  | cs => (1, cs)

/-- What `QString::toInt(&ok)` accepts, in the C locale and base 10: optional
surrounding white space, an optional sign, one or more decimal digits, and a
value that fits a 32-bit `int`. -/
def parseInt (s : String) : Option Int :=
  let (sign, body) := splitSign (trimmed s.data)
  match digitsValue body 0 with
  | some n =>
    let v : Int := sign * n
    if -2147483648 ≤ v ∧ v ≤ 2147483647 then some v else none
  | none => none

/-- `QString::toInt()`: the parsed value, or 0 when the conversion fails. -/
def toInt (s : String) : Int := (parseInt s).getD 0

/-- A run of leading decimal digits: its value (continuing `acc`), its length
(continuing `k`) and the characters after it. -/
def takeDigits : List Char → Nat → Nat → Nat × Nat × List Char
  | [], acc, k => (acc, k, [])
  | c :: cs, acc, k =>
    match digitValue c with
    | some d => takeDigits cs (10 * acc + d) (k + 1)
    | none => (acc, k, c :: cs)

/-- What `QString::toDouble(&ok)` accepts, in the C locale, among the finite
decimal spellings: optional surrounding white space, an optional sign, digits
with an optional fractional part (at least one digit in all), and an optional
exponent. The value is exact; the spellings of infinity and NaN have no
rational value and are not accepted here. -/
def parseDouble (s : String) : Option ℚ :=
  let (sign, body) := splitSign (trimmed s.data)
  let (ip, ni, rest1) := takeDigits body 0 0
  let (fp, nf, rest2) :=
    match rest1 with
    | '.' :: r => takeDigits r 0 0
    | r => (0, 0, r)
  if ni + nf = 0 then none
  else
    let mant : ℚ := (ip : ℚ) + (fp : ℚ) / (10 : ℚ) ^ nf
    match rest2 with
    | [] => some ((sign : ℚ) * mant)
    | e :: r =>
      if e = 'e' ∨ e = 'E' then
        let (es, eb) := splitSign r
        match digitsValue eb 0 with
        | some k => some ((sign : ℚ) * mant * (10 : ℚ) ^ (es * (k : Int)))
        | none => none
      else none

/-- `QString::toDouble()`: the parsed value, or 0 when the conversion fails. -/
def toDouble (s : String) : ℚ := (parseDouble s).getD 0

/-! ## The DOM (the parts of QDomNode that the program uses) -/

/-- A DOM node. An attribute is a (name, value) pair; `other` stands for the
node kinds that carry neither attributes, children nor text data for `toText`
(comments, processing instructions, entity references, ...), with their
`nodeName`. -/
inductive QDomNode where
  | element (tagName : String) (attributes : List (String × String))
      (childNodes : List QDomNode)
  | text (data : String)
  | cdata (data : String)
  | other (nodeName : String)

/-- `QDomNode::nodeName()`. -/
def QDomNode.nodeName : QDomNode → String
  | .element tagName _ _ => tagName
  | .text _ => "#text"
  | .cdata _ => "#cdata-section"
  | .other nodeName => nodeName

/-- `QDomNode::attributes()`, in the order in which `item(i)` enumerates them;
empty for a node that is not an element. -/
def QDomNode.attributes : QDomNode → List (String × String)
  | .element _ attributes _ => attributes
  | _ => []

/-- `QDomNode::childNodes()`. -/
def QDomNode.childNodes : QDomNode → List QDomNode
  | .element _ _ childNodes => childNodes
  | _ => []

/-- `QDomNode::isElement()`. -/
def QDomNode.isElement : QDomNode → Bool
  | .element _ _ _ => true
  | _ => false

/-- The elements visited by `firstChildElement()` followed by
`nextSiblingElement()` until the null element: the child elements in
document order. -/
def QDomNode.childElements (n : QDomNode) : List QDomNode :=
  n.childNodes.filter QDomNode.isElement

/-- `toText().data()` of a possibly null node: the character data of a text or
CDATA node, the empty string for every other node and for the null node. -/
def textData : Option QDomNode → String
  | some (.text data) => data
  | some (.cdata data) => data
  | _ => ""

/-- `e.firstChild().toText().data()`. -/
def QDomNode.firstChildText (n : QDomNode) : String := textData n.childNodes.head?

/-- `item.childNodes().at(0).toText().data()` for an attribute node `item`: an
attribute node holds its value in a single text child. -/
def attrText (item : String × String) : String := item.2

/-! ## parseChild -/

/-- The anonymous `enum { Node, Link }` of `parseChild`. -/
inductive Kind where
  | Node
  | Link
deriving DecidableEq, Repr

/-- The local variables of `parseChild`, with their initial values. -/
structure ParseVars where
  id : Int := 0
  x : ℚ := 0
  y : ℚ := 0
  w : ℚ := 0
  h : ℚ := 0
  label : String := ""
  kind : Kind := Kind.Node
deriving DecidableEq, Repr

/-- The body of the attribute loop of `parseChild`. -/
def parseAttr (v : ParseVars) (item : String × String) : ParseVars :=
  let name := item.1
  if name = "label" then { v with label := attrText item }
  else if name = "ID" then { v with id := toInt (attrText item) }
  else if name = "x" then { v with x := toDouble (attrText item) }
  else if name = "y" then { v with y := toDouble (attrText item) }
  else if name = "width" then { v with w := toDouble (attrText item) }
  else if name = "height" then { v with h := toDouble (attrText item) }
  else if name = "xsi:type" then
    if attrText item = "link" then { v with kind := Kind.Link } else v
  else v

/-- The body of the child-element loop of the `Link` case of `parseChild`. -/
def parseLinkChild (l : LinkInfo) (e : QDomNode) : LinkInfo :=
  if e.nodeName = "ID1" then { l with from_ := toInt e.firstChildText }
  else if e.nodeName = "ID2" then { l with to_ := toInt e.firstChildText }
  else l

/-- `parseChild(node)`. -/
def parseChild (node : QDomNode) : VueElement :=
  let v := node.attributes.foldl parseAttr {}
  match v.kind with
  | Kind.Link => VueElement.link (node.childElements.foldl parseLinkChild {})
  | Kind.Node =>
    VueElement.node { id := v.id, rect := ⟨v.x, v.y, v.w, v.h⟩, label := v.label }

/-! ## main: collecting the records -/

/-- The local visitor object `objects` of `main`. -/
structure Objects where
  nodes : List NodeInfo := []
  links : List LinkInfo := []
deriving DecidableEq, Repr

/-- `std::visit(objects, v)`: the two `operator()` overloads. -/
def Objects.visit (o : Objects) : VueElement → Objects
  | VueElement.node n => { o with nodes := o.nodes ++ [n] }
  | VueElement.link n => { o with links := o.links ++ [n] }

/-- The body of the loop of `main` over `doc.childNodes()`. -/
def collectStep (o : Objects) (node : QDomNode) : Objects :=
  if node.nodeName = "child" then o.visit (parseChild node) else o

/-- The loop of `main` over `doc.childNodes()`, given the document element. -/
def collect (doc : QDomNode) : Objects := doc.childNodes.foldl collectStep {}

/-! ## main: building the canvas -/

/-- `std::unordered_map<int64_t, Node*>`: a finite partial map from ids to
addresses of Node objects. -/
abbrev NodeMap := Int → Option Nat

/-- `m[k] = v`: insert, or overwrite the entry of `k`. -/
def NodeMap.assign (m : NodeMap) (k : Int) (v : Nat) : NodeMap :=
  fun j => if j = k then some v else m j

/-- `struct Canvas`. -/
structure Canvas where
  nodes : NodeMap := fun _ => none
  links : List Link := []

/-- The objects of the running program: the store of Node objects (`heap`, by
address; the addresses below `allocated` are the Nodes created by `new Node`,
all of which are items of the scene) and the canvas `sc`. -/
structure State where
  heap : Nat → Node := fun _ => Node.new 0 {} ""
  allocated : Nat := 0
  sc : Canvas := {}

/-- Writes the Node object at address `a`. -/
def State.store (s : State) (a : Nat) (n : Node) : State :=
  { s with heap := fun b => if b = a then n else s.heap b }

/-- The body of the first build loop of `main`, for one node record. The
`setPos` call happens before the item joins the scene (and before any Link
exists), so it only sets the position. -/
def addNode (s : State) (obj : NodeInfo) : State :=
  if !isEmpty obj.label then
    let item := s.allocated
    let s1 := { s.store item (Node.new obj.id obj.rect obj.label) with allocated := item + 1 }
    let s2 := { s1 with sc := { s1.sc with nodes := s1.sc.nodes.assign obj.id item } }
    s2.store item { s2.heap item with pos := ⟨obj.rect.x, obj.rect.y⟩ }
  else s

/-- The body of the second build loop of `main`, for one link record. -/
def addLink (s : State) (obj : LinkInfo) : State :=
  match s.sc.nodes obj.from_, s.sc.nodes obj.to_ with
  | some it1, some it2 =>
    let from_ := s.heap it1
    let to_ := s.heap it2
    let start := from_.mapToScene from_.boundingRect.center
    let end_ := to_.mapToScene to_.boundingRect.center
    let line := Link.new start.x start.y end_.x end_.y obj.from_ obj.to_
    { s with sc := { s.sc with links := s.sc.links ++ [line] } }
  | _, _ => s

/-- The first build loop of `main`. -/
def buildNodes (s : State) (nodes : List NodeInfo) : State := nodes.foldl addNode s

/-- The second build loop of `main`. -/
def buildLinks (s : State) (links : List LinkInfo) : State := links.foldl addLink s

/-- The canvas build of `main`: `Canvas sc;` followed by the two loops. -/
def build (objects : Objects) : State :=
  buildLinks (buildNodes {} objects.nodes) objects.links

/-- A move of the Node at address `a` to `p` (a drag, or `setPos(p)`): the item
takes the position and, being an item of the scene with
`ItemSendsScenePositionChanges`, receives
`itemChange(ItemScenePositionHasChanged, p)`. -/
def State.move (s : State) (a : Nat) (p : QPointF) : State :=
  let s1 := s.store a { s.heap a with pos := p }
  { s1 with sc := { s1.sc with
      links := (s1.heap a).itemChange s1.sc.links
        GraphicsItemChange.ItemScenePositionHasChanged p } }

/-- A sequence of moves, each of an allocated Node (an item of the scene);
a move that names no allocated Node does nothing. -/
def State.run (s : State) (moves : List (Nat × QPointF)) : State :=
  moves.foldl (fun s m => if m.1 < s.allocated then s.move m.1 m.2 else s) s

/-! ## ZoomView -/

/-- `QGraphicsView::ViewportAnchor`. -/
inductive ViewportAnchor where
  | NoAnchor
  | AnchorViewCenter
  | AnchorUnderMouse
deriving DecidableEq, Repr

/-- The state of the view that `wheelEvent` reads and writes: the horizontal
scale `transform().m11()` and the transformation anchor. -/
structure ZoomView where
  m11 : ℚ := 1
  transformationAnchor : ViewportAnchor := ViewportAnchor.AnchorViewCenter
deriving DecidableEq, Repr

/-- The parts of `QWheelEvent` that `wheelEvent` reads: whether
`Qt::ControlModifier` is held, and `angleDelta().y()`. -/
structure QWheelEvent where
  control : Bool
  angle : Int
deriving DecidableEq, Repr

/-- `0.1 / std::abs(angle)` as a `double`, for an angle whose absolute value
`std::abs` can represent, that is for every `int` but the least: `none` stands
for +infinity, the IEEE quotient when `angle` is 0. For the least `int` see
`tenthOverOfInt`. -/
def tenthOver (angle : Int) : Option ℚ :=
  if angle = 0 then none else some ((1 / 10 : ℚ) / (|angle| : Int))

/-- `std::clamp(v, lo, hi)`, that is `(v < lo) ? lo : (hi < v) ? hi : v`, for a
value that may be +infinity. -/
def clamp (v : Option ℚ) (lo hi : ℚ) : ℚ :=
  match v with
  | none => hi
  | some q => if q < lo then lo else if hi < q then hi else q

/-- The `factor` computed by `wheelEvent` from the angle, for every `int` but the
least (see `factorOfInt`). -/
def factor (angle : Int) : ℚ :=
  if angle > 0 then 11 / 10 - clamp (tenthOver angle) 0 (1 / 10)
  else 9 / 10 + clamp (tenthOver angle) 0 (1 / 10)

/-- The least value of a 32-bit `int`. -/
def intMin : Int := -2147483648

/-- `std::abs(angle)` on a 32-bit `int`, overflow included: the least `int` has
no positive counterpart and two's-complement arithmetic gives it back
unchanged. -/
def stdAbs (angle : Int) : Int := if angle = intMin then intMin else |angle|

/-- `0.1 / std::abs(angle)` as a `double`, with `std::abs` computed on a 32-bit
`int`: `none` stands for +infinity, the IEEE quotient when `angle` is 0; at
the least `int` the quotient is negative. -/
def tenthOverOfInt (angle : Int) : Option ℚ :=
  if stdAbs angle = 0 then none else some ((1 / 10 : ℚ) / (stdAbs angle : Int))

/-- The `factor` computed by `wheelEvent` from an `int` angle, with `std::abs`
computed on a 32-bit `int`. -/
def factorOfInt (angle : Int) : ℚ :=
  if angle > 0 then 11 / 10 - clamp (tenthOverOfInt angle) 0 (1 / 10)
  else 9 / 10 + clamp (tenthOverOfInt angle) 0 (1 / 10)

/-- `QGraphicsView::scale(sx, sx)`: its effect on `m11`. -/
def ZoomView.scale (v : ZoomView) (sx : ℚ) : ZoomView := { v with m11 := v.m11 * sx }

/-- `QGraphicsView::setTransformationAnchor`. -/
def ZoomView.setTransformationAnchor (v : ZoomView) (a : ViewportAnchor) : ZoomView :=
  { v with transformationAnchor := a }

/-- `ZoomView::wheelEvent(event)`. Without the modifier the event goes to
`QGraphicsView::wheelEvent`, which scrolls and touches neither field. -/
def ZoomView.wheelEvent (v : ZoomView) (event : QWheelEvent) : ZoomView :=
  if event.control then
    let anchor := v.transformationAnchor
    let v1 := v.setTransformationAnchor ViewportAnchor.AnchorUnderMouse
    let angle := event.angle
    let factor := factor angle
    let curscale := v1.m11 * factor
    let v2 := if curscale > 1 / 100 ∧ curscale < 4 then v1.scale factor else v1
    v2.setTransformationAnchor anchor
  else v

/-- `QByteArray`, as the list of its bytes. -/
abbrev QByteArray := List Nat

/-- The byte `'\n'`. -/
def newline : Nat := 10

/-- The scanning loop of `QByteArray::indexOf`: `bytes` are the bytes not yet
looked at and `i` is the index of the first of them. -/
def indexOfLoop (ch : Nat) : List Nat → Nat → Int
  | [], _ => -1
  | b :: bytes, i => if b = ch then (i : Int) else indexOfLoop ch bytes (i + 1)

/-- `QByteArray::indexOf(ch, from)`: the index of the first occurrence of `ch`
at or after `from`, or -1. A negative `from` counts from the end. -/
def indexOf (dat : QByteArray) (ch : Nat) (from_ : Int) : Int :=
  let from1 : Int := if from_ < 0 then max (from_ + dat.length) 0 else from_
  if from1 < dat.length then indexOfLoop ch (dat.drop from1.toNat) from1.toNat
  else -1

/-- `QByteArray::remove(pos, len)`. -/
def remove (dat : QByteArray) (pos len : Int) : QByteArray :=
  if len ≤ 0 ∨ pos < 0 ∨ (dat.length : Int) ≤ pos then dat
  else dat.take pos.toNat ++ dat.drop (pos.toNat + len.toNat)

/-- The loop `for (int i = 0; i < 5; i++) cur_idx = dat.indexOf('\n', cur_idx + 1);`
started from `cur_idx`, with `n` iterations left. -/
def scanNewlines (dat : QByteArray) : Nat → Int → Int
  | 0, cur_idx => cur_idx
  | n + 1, cur_idx => scanNewlines dat n (indexOf dat newline (cur_idx + 1))

/-- The preamble stripping of `main`: `cur_idx = 0`, five searches, then
`dat.remove(0, cur_idx + 1)`. -/
def stripPreamble (dat : QByteArray) : QByteArray :=
  let cur_idx := scanNewlines dat 5 0
  remove dat 0 (cur_idx + 1)

/-! ## Reference definitions for the statements about `parseChild` -/

/-- The integer read from the LAST child element of `node` named `name`: the
conversion of the text of its first child, and 0 when there is no such
element. -/
def lastIdOf (name : String) (node : QDomNode) : Int :=
  match (node.childElements.filter (fun e => e.nodeName = name)).getLast? with
  | some e => toInt e.firstChildText
  | none => 0

/-- The integer read from the FIRST child element of `node` named `name`, as the
specification words it: the conversion of the text of its first child, and 0
when there is no such element. -/
def firstIdOf (name : String) (node : QDomNode) : Int :=
  match (node.childElements.filter (fun e => e.nodeName = name)).head? with
  | some e => toInt e.firstChildText
  | none => 0

/-- A link element with two `ID1` and two `ID2` children. -/
def linkWithRepeatedIds : QDomNode :=
  .element "child" [("ID", "5"), ("xsi:type", "link")]
    [.element "ID1" [] [.text "1"], .element "ID2" [] [.text "2"],
     .element "ID1" [] [.text "7"], .element "ID2" [] [.text "9"]]

/-- The link element of the specification's example: `ID1` "1" and `ID2` "2". -/
def linkOneTwo : QDomNode :=
  .element "child" [("xsi:type", "link")]
    [.text "\n", .element "ID1" [] [.text "1"], .text "\n",
     .element "ID2" [] [.text "2"], .text "\n"]

/-! ## Reference definitions for the statements about the canvas build -/

/-- The Node that the build makes of a node record: the record's id, an item
rectangle of the record's width and height, the record's label, placed at the
record's rectangle origin. -/
def nodeOfRecord (r : NodeInfo) : Node :=
  { id := r.id, rect := ⟨0, 0, r.rect.width, r.rect.height⟩, text := r.label,
    pos := ⟨r.rect.x, r.rect.y⟩ }

/-- Registry lookup followed by a read of the Node object: the Node registered
under `id`, if any. -/
def State.lookup (s : State) (id : Int) : Option Node := (s.sc.nodes id).map s.heap

/-- The current position of a Node plus the centre offset of its bounding
rectangle: the point a link endpoint tied to the Node is meant to sit on. -/
def Node.sceneCenter (n : Node) : QPointF := n.pos + n.boundingRect.center

/-- A link record is valid for a registry when both of its ids are keys. -/
def validLink (nodes : NodeMap) (r : LinkInfo) : Bool :=
  (nodes r.from_).isSome && (nodes r.to_).isSome

/-- The Link that a valid link record stands for in a state: from the centre of
the Node registered under `from` to the centre of the Node registered under
`to`; nothing for a record that is not valid. -/
def linkOfRecord (s : State) (r : LinkInfo) : Option Link :=
  match s.sc.nodes r.from_, s.sc.nodes r.to_ with
  | some a, some b => some ⟨⟨(s.heap a).sceneCenter, (s.heap b).sceneCenter⟩, r.from_, r.to_⟩
  | _, _ => none

/-- Two node records with the same id, the first with an empty label. -/
def emptyThenLabelled : List NodeInfo :=
  [⟨1, ⟨0, 0, 10, 10⟩, ""⟩, ⟨1, ⟨50, 50, 20, 20⟩, "A"⟩]

/-- Two node records with distinct ids, the first with an empty label. -/
def emptyAndOther : Objects :=
  { nodes := [⟨3, ⟨0, 0, 10, 10⟩, ""⟩, ⟨1, ⟨50, 50, 20, 20⟩, "A"⟩], links := [] }

/-! ## Reference definitions for the endpoint invariant -/

/-- The first endpoint of a link sits on the centre of the Node registered under
the link's `from` id. -/
def firstTracks (s : State) (l : Link) : Prop :=
  ∃ a, s.sc.nodes l.from_ = some a ∧ l.line.p1 = (s.heap a).sceneCenter

/-- The second endpoint of a link sits on the centre of the Node registered
under the link's `to` id. -/
def secondTracks (s : State) (l : Link) : Prop :=
  ∃ b, s.sc.nodes l.to_ = some b ∧ l.line.p2 = (s.heap b).sceneCenter

/-- The Node at address `a` is the one the registry holds under its id (it has
not been replaced there by a Node built from a later record with the same
id). -/
def State.registered (s : State) (a : Nat) : Prop := s.sc.nodes (s.heap a).id = some a

instance (s : State) (a : Nat) : Decidable (s.registered a) := by
  unfold State.registered
  infer_instance

/-- Three labelled node records, the first two sharing id 1, and the link record
1 → 2. -/
def sharedIdObjects : Objects :=
  { nodes := [⟨1, ⟨0, 0, 10, 10⟩, "A"⟩, ⟨1, ⟨50, 50, 20, 20⟩, "B"⟩, ⟨2, ⟨7, 7, 2, 2⟩, "C"⟩],
    links := [⟨1, 2⟩] }

/-- Two labelled node records with ids 1 and 2, and the link records 1 → 2,
2 → 1 and 1 → 1. -/
def twoNodeObjects : Objects :=
  { nodes := [⟨1, ⟨0, 0, 10, 10⟩, "A"⟩, ⟨2, ⟨50, 50, 20, 20⟩, "B"⟩],
    links := [⟨1, 2⟩, ⟨2, 1⟩, ⟨1, 1⟩] }

/-- What is kept along moves of registered Nodes: the registry holds each Node
under the Node's own id, the first endpoint of every Link tracks, and the second
endpoint of every Link that is not a self-loop tracks. -/
def Synced (s : State) : Prop :=
  (∀ k a, s.sc.nodes k = some a → (s.heap a).id = k)
  ∧ ∀ l ∈ s.sc.links, firstTracks s l ∧ (l.from_ ≠ l.to_ → secondTracks s l)

/-! ## Reference definitions for the preamble stripping -/

/-- The bytes left after removing the prefix up to and including the `n`-th
newline, as the specification words the stripping (nothing is left when there
are fewer than `n` newlines). -/
def dropLines : Nat → QByteArray → QByteArray
  | 0, dat => dat
  | n + 1, dat => dropLines n ((dat.dropWhile (fun b => b != newline)).drop 1)

/-- The bytes of "\nA\nB\nC\nD\n<a/>": an empty first line, five newlines. -/
def emptyFirstLine : QByteArray := [10, 65, 10, 66, 10, 67, 10, 68, 10, 60, 97, 47, 62]

/-- Six newlines followed by "<a/>". -/
def sixNewlines : QByteArray := [10, 10, 10, 10, 10, 10, 60, 97, 47, 62]

/-- The bytes of "a\nb\nc\nd\ne\n<a/>\n": five preamble lines, then a document. -/
def fiveLinePreamble : QByteArray :=
  [97, 10, 98, 10, 99, 10, 100, 10, 101, 10, 60, 97, 47, 62, 10]

/-! ## Reference definitions for the statements about node records -/

/-- The value of the attribute named `name`, if there is one. The attributes of
an element have distinct names; on a list that repeats a name this is the
value of the first. -/
def attrValue (name : String) (attrs : List (String × String)) : Option String :=
  (attrs.find? (fun a => a.1 = name)).map Prod.snd

/-- The integer value of the attribute named `name`: the conversion of its text,
and 0 when the attribute is absent. -/
def intAttr (name : String) (attrs : List (String × String)) : Int :=
  match attrValue name attrs with
  | some t => toInt t
  | none => 0

/-- The floating-point value of the attribute named `name`: the conversion of its
text, and 0 when the attribute is absent. -/
def doubleAttr (name : String) (attrs : List (String × String)) : ℚ :=
  match attrValue name attrs with
  | some t => toDouble t
  | none => 0

/-- The text of the attribute named `name`, empty when the attribute is absent. -/
def textAttr (name : String) (attrs : List (String × String)) : String :=
  match attrValue name attrs with
  | some t => t
  | none => ""

/-- The attributes of the node element of the specification's example. -/
def nodeExampleAttrs : List (String × String) :=
  [("ID", "1"), ("label", "A"), ("x", "0"), ("y", "0"), ("width", "10"), ("height", "10")]

/-! ## Reference definitions for the statements about the record sequences -/

/-- The node has an attribute `xsi:type` with value "link": its kind is link. -/
def hasLinkType (c : QDomNode) : Bool :=
  c.attributes.any (fun a => a.1 = "xsi:type" && a.2 = "link")

/-- The children of the root that give a node record: those named `child`
whose kind is node. -/
def nodeChildren (children : List QDomNode) : List QDomNode :=
  children.filter (fun c => c.nodeName = "child" && !hasLinkType c)

/-- The children of the root that give a link record: those named `child` whose
kind is link. -/
def linkChildren (children : List QDomNode) : List QDomNode :=
  children.filter (fun c => c.nodeName = "child" && hasLinkType c)

/-- A root element with a comment, two node children, a link child between
them, a text node and an element of another name. -/
def sampleRoot : QDomNode :=
  .element "LW-MAP" []
    [.other "#comment",
     .element "child" [("ID", "1"), ("label", "A"), ("xsi:type", "node")] [],
     .text "\n",
     .element "child" [("ID", "3"), ("xsi:type", "link")]
       [.element "ID1" [] [.text "1"], .element "ID2" [] [.text "2"]],
     .element "layer" [("ID", "9"), ("label", "L")] [],
     .element "child" [("ID", "2"), ("label", "B")] []]

/-! ## Reference definitions for the initial link geometry -/

/-- The source record of the Node registered under `id`: the last node record
with this id and a non-empty label. -/
def lastLabelled (nodes : List NodeInfo) (id : Int) : Option NodeInfo :=
  (nodes.filter (fun r => r.id = id ∧ isEmpty r.label = false)).getLast?

/-- The rectangle origin of a node record plus the centre offset (width / 2,
height / 2). -/
def recordCenter (r : NodeInfo) : QPointF :=
  ⟨r.rect.x + r.rect.width / 2, r.rect.y + r.rect.height / 2⟩

/-- The Link that a link record gives, in terms of the node records: from the
centre of the source record of `from` to the centre of the source record of
`to`; nothing when either id has no source record. -/
def initialLink (nodes : List NodeInfo) (r : LinkInfo) : Option Link :=
  match lastLabelled nodes r.from_, lastLabelled nodes r.to_ with
  | some a, some b => some ⟨⟨recordCenter a, recordCenter b⟩, r.from_, r.to_⟩
  | _, _ => none

/-! ## Reference definitions for the order of moves -/

/-- A link list touching nodes 1 and 2 in every way: 1 → 2, 2 → 1, the
self-loops 1 → 1 and 2 → 2, and links to and from a third node. -/
def mixedLinks : List Link :=
  [Link.new 0 0 1 1 1 2, Link.new 2 2 3 3 2 1, Link.new 4 4 5 5 1 1, Link.new 6 6 7 7 2 2,
   Link.new 8 8 9 9 3 1, Link.new 1 2 3 4 2 3, Link.new 5 6 7 8 3 4]

/-! ## Position synchronisation: what one notification does to one link -/

/-- The centre of the bounding rectangle is the centre of the item rectangle:
the pen margin is symmetric. -/
theorem boundingRect_center (n : Node) :
    n.boundingRect.center = ⟨n.rect.x + n.rect.width / 2, n.rect.y + n.rect.height / 2⟩ := by
  simp only [Node.boundingRect, QRectF.adjusted, QRectF.center, Node.halfPenWidth,
    QPointF.mk.injEq]
  constructor <;> ring

/-- A notification never changes the ids of a link. -/
theorem syncLink_ids (n : Node) (p : QPointF) (l : Link) :
    (n.syncLink p l).from_ = l.from_ ∧ (n.syncLink p l).to_ = l.to_ := by
  unfold Node.syncLink
  split_ifs <;> simp [Link.setLine]

/-- A link that leaves the notifying node gets its first endpoint set and keeps
its second endpoint. -/
theorem syncLink_of_from (n : Node) (p : QPointF) (l : Link) (h : l.from_ = n.id) :
    (n.syncLink p l).line = ⟨p + n.boundingRect.center, l.line.p2⟩ := by
  simp [Node.syncLink, h, Link.setLine, QLineF.setP1]

/-- A link that only enters the notifying node gets its second endpoint set and
keeps its first endpoint. -/
theorem syncLink_of_to (n : Node) (p : QPointF) (l : Link) (h1 : l.from_ ≠ n.id)
    (h2 : l.to_ = n.id) :
    (n.syncLink p l).line = ⟨l.line.p1, p + n.boundingRect.center⟩ := by
  simp [Node.syncLink, h1, h2, Link.setLine, QLineF.setP2]

/-- A link that does not touch the notifying node is left alone. -/
theorem syncLink_of_neither (n : Node) (p : QPointF) (l : Link) (h1 : l.from_ ≠ n.id)
    (h2 : l.to_ ≠ n.id) : n.syncLink p l = l := by
  simp [Node.syncLink, h1, h2]

/-! ## C1, C2: the self-loop case of the notification -/

/-- C1: a position-change notification of node 1 (a 10 by 10 rectangle), moved to
(100, 100), on the link list holding the single self-loop 1 → 1 with both
endpoints at (5, 5): the first endpoint goes to (105, 105), the new centre, and
the second endpoint stays at (5, 5). The branch for `to` is an `else if` of
the branch for `from`, so one notification never sets both endpoints of a link. -/
theorem selfLoop_second_endpoint_not_updated :
    (Node.mk 1 ⟨0, 0, 10, 10⟩ "A" ⟨100, 100⟩).itemChange [Link.new 5 5 5 5 1 1]
        GraphicsItemChange.ItemScenePositionHasChanged ⟨100, 100⟩
      = [Link.new 105 105 5 5 1 1]
    ∧ (⟨100, 100⟩ + (Node.mk 1 ⟨0, 0, 10, 10⟩ "A" ⟨100, 100⟩).boundingRect.center : QPointF)
      = ⟨105, 105⟩ := by
  with_unfolding_all decide

/-- C2: a position-change notification of node A (id 1, a 10 by 10 rectangle),
moved to (100, 100), on the links 1 → 2, 2 → 1, 1 → 1, 2 → 2 and 3 → 4, all with
endpoints (5, 5) and (8, 8). The endpoints tied to A on the first two links go to
(105, 105), the links 2 → 2 and 3 → 4 are unchanged, and on the self-loop 1 → 1
only the first endpoint is set: its second endpoint, tied to A through `to`,
stays at (8, 8). -/
theorem frame_holds_except_selfLoop :
    (Node.mk 1 ⟨0, 0, 10, 10⟩ "A" ⟨100, 100⟩).itemChange
        [Link.new 5 5 8 8 1 2, Link.new 5 5 8 8 2 1, Link.new 5 5 8 8 1 1,
         Link.new 5 5 8 8 2 2, Link.new 5 5 8 8 3 4]
        GraphicsItemChange.ItemScenePositionHasChanged ⟨100, 100⟩
      = [Link.new 105 105 8 8 1 2, Link.new 5 5 105 105 2 1, Link.new 105 105 8 8 1 1,
         Link.new 5 5 8 8 2 2, Link.new 5 5 8 8 3 4] := by
  with_unfolding_all decide

/-! ## parseChild: the kind of the record -/

/-- The effect of one attribute on `kind`. -/
theorem parseAttr_kind (v : ParseVars) (a : String × String) :
    (parseAttr v a).kind
      = if a.1 = "xsi:type" ∧ a.2 = "link" then Kind.Link else v.kind := by
  unfold parseAttr attrText
  by_cases h : a.1 = "xsi:type"
  · simp [h]
    split_ifs <;> rfl
  · simp only [h, false_and, if_false]
    split_ifs <;> rfl

/-- The kind after the attribute loop: `Link` exactly when it was `Link` before
or some attribute is `xsi:type="link"`. -/
theorem foldl_parseAttr_kind (attrs : List (String × String)) (v : ParseVars) :
    (attrs.foldl parseAttr v).kind = Kind.Link
      ↔ v.kind = Kind.Link ∨ ∃ a ∈ attrs, a.1 = "xsi:type" ∧ a.2 = "link" := by
  induction attrs generalizing v with
  | nil => simp
  | cons a attrs ih =>
    rw [List.foldl_cons, ih, parseAttr_kind]
    by_cases h : a.1 = "xsi:type" ∧ a.2 = "link"
    · simp only [h, and_self, if_true, true_or, List.mem_cons, exists_eq_or_imp, or_true]
    · simp only [h, if_false, List.mem_cons, exists_eq_or_imp, false_or]

/-- The record is a link record exactly when the attribute loop ends with kind
`Link`. -/
theorem parseChild_link_iff (node : QDomNode) :
    (∃ l, parseChild node = VueElement.link l)
      ↔ (node.attributes.foldl parseAttr {}).kind = Kind.Link := by
  unfold parseChild
  generalize List.foldl parseAttr {} node.attributes = v
  rcases v with ⟨id, x, y, w, h, label, kind⟩
  cases kind <;> simp

/-- C10: `parseChild` returns a link record if and only if the node has an
attribute named `xsi:type` whose value is exactly "link"; when it has none it
returns a node record; and two elements with the same attributes get records
of the same kind whatever their tag names and children are. -/
theorem parseChild_kind (node : QDomNode) :
    ((∃ l, parseChild node = VueElement.link l)
        ↔ ∃ a ∈ node.attributes, a.1 = "xsi:type" ∧ a.2 = "link")
    ∧ ((¬ ∃ a ∈ node.attributes, a.1 = "xsi:type" ∧ a.2 = "link")
        ↔ ∃ n, parseChild node = VueElement.node n)
    ∧ (∀ tag1 tag2 attrs (children1 children2 : List QDomNode),
        (∃ l, parseChild (.element tag1 attrs children1) = VueElement.link l)
          ↔ ∃ l, parseChild (.element tag2 attrs children2) = VueElement.link l) := by
  have key : ∀ nd : QDomNode, (∃ l, parseChild nd = VueElement.link l)
      ↔ ∃ a ∈ nd.attributes, a.1 = "xsi:type" ∧ a.2 = "link" := by
    intro nd
    rw [parseChild_link_iff, foldl_parseAttr_kind]
    simp
  refine ⟨key node, ?_, ?_⟩
  · rw [← key node]
    cases h : parseChild node with
    | node n => simp
    | link l => simp
  · intro tag1 tag2 attrs children1 children2
    rw [key, key]
    rfl

/-! ## parseChild: the ids of a link record -/

/-- The child-element loop of the `Link` case sets `from` from the last `ID1`
element and keeps the initial value when there is none. -/
theorem foldl_parseLinkChild_from (es : List QDomNode) (l : LinkInfo) :
    (es.foldl parseLinkChild l).from_
      = match (es.filter (fun e => e.nodeName = "ID1")).getLast? with
        | some e => toInt e.firstChildText
        | none => l.from_ := by
  induction es using List.reverseRecOn with
  | nil => simp
  | append_singleton es e ih =>
    rw [List.foldl_append, List.foldl_cons, List.foldl_nil, List.filter_append]
    by_cases h : e.nodeName = "ID1"
    · simp [parseLinkChild, h]
    · have hf : List.filter (fun e => decide (e.nodeName = "ID1")) [e] = [] := by
        simp [h]
      rw [hf, List.append_nil, ← ih]
      unfold parseLinkChild
      split_ifs <;> rfl

/-- The child-element loop of the `Link` case sets `to` from the last `ID2`
element and keeps the initial value when there is none. -/
theorem foldl_parseLinkChild_to (es : List QDomNode) (l : LinkInfo) :
    (es.foldl parseLinkChild l).to_
      = match (es.filter (fun e => e.nodeName = "ID2")).getLast? with
        | some e => toInt e.firstChildText
        | none => l.to_ := by
  induction es using List.reverseRecOn with
  | nil => simp
  | append_singleton es e ih =>
    rw [List.foldl_append, List.foldl_cons, List.foldl_nil, List.filter_append]
    by_cases h : e.nodeName = "ID2"
    · by_cases h1 : e.nodeName = "ID1"
      · rw [h1] at h
        exact absurd h (by decide)
      · simp [parseLinkChild, h]
    · have hf : List.filter (fun e => decide (e.nodeName = "ID2")) [e] = [] := by
        simp [h]
      rw [hf, List.append_nil, ← ih]
      unfold parseLinkChild
      split_ifs <;> rfl

/-- C3, as stated, fails: on a link element whose child elements are `ID1` "1",
`ID2` "2", `ID1` "7", `ID2` "9", the emitted record is {from: 7, to: 9}, while
the first `ID1` and the first `ID2` read 1 and 2. -/
theorem first_id_does_not_win :
    parseChild linkWithRepeatedIds = VueElement.link ⟨7, 9⟩
    ∧ firstIdOf "ID1" linkWithRepeatedIds = 1
    ∧ firstIdOf "ID2" linkWithRepeatedIds = 2 := by
  decide

/-- C3, amended: for every node with an attribute `xsi:type="link"`, the emitted
record is a link record whose `from` is the integer parsed from the text of the
LAST child element named `ID1` and whose `to` is that of the LAST child element
named `ID2` (0 when there is none); earlier `ID1`/`ID2` children do not affect
the record. -/
theorem link_ids_from_last_children (node : QDomNode)
    (h : ∃ a ∈ node.attributes, a.1 = "xsi:type" ∧ a.2 = "link") :
    parseChild node = VueElement.link ⟨lastIdOf "ID1" node, lastIdOf "ID2" node⟩ := by
  have hk : (node.attributes.foldl parseAttr {}).kind = Kind.Link :=
    (foldl_parseAttr_kind _ _).mpr (Or.inr h)
  unfold parseChild
  simp only [hk]
  congr 1
  have h1 := foldl_parseLinkChild_from node.childElements {}
  have h2 := foldl_parseLinkChild_to node.childElements {}
  cases hl : List.foldl parseLinkChild {} node.childElements with
  | mk f t =>
    rw [hl] at h1 h2
    simp only at h1 h2
    rw [h1, h2]
    rfl

/-- C3, amended, on the example of the specification: `ID1` "1" and `ID2` "2"
give the record {from: 1, to: 2}. -/
theorem link_ids_from_last_children_witness :
    (∃ a ∈ linkOneTwo.attributes, a.1 = "xsi:type" ∧ a.2 = "link")
    ∧ parseChild linkOneTwo = VueElement.link ⟨1, 2⟩ :=
  ⟨⟨("xsi:type", "link"), by decide, rfl, rfl⟩,
    link_ids_from_last_children linkOneTwo ⟨("xsi:type", "link"), by decide, rfl, rfl⟩⟩

/-! ## The node loop of the build -/

/-- A record with an empty label leaves the state as it is. -/
theorem addNode_of_empty (s : State) (r : NodeInfo) (h : isEmpty r.label = true) :
    addNode s r = s := by
  simp [addNode, h]

/-- A record with a non-empty label allocates the Node of the record at the next
address and registers that address under the record's id. -/
theorem addNode_of_label (s : State) (r : NodeInfo) (h : isEmpty r.label = false) :
    (addNode s r).sc.nodes = s.sc.nodes.assign r.id s.allocated
    ∧ (addNode s r).heap = (fun b => if b = s.allocated then nodeOfRecord r else s.heap b)
    ∧ (addNode s r).allocated = s.allocated + 1
    ∧ (addNode s r).sc.links = s.sc.links := by
  refine ⟨?_, ?_, ?_, ?_⟩
  · simp [addNode, h, State.store]
  · funext b
    by_cases hb : b = s.allocated
    · simp [addNode, h, State.store, hb, nodeOfRecord, Node.new]
    · simp [addNode, h, State.store, hb]
  · simp [addNode, h, State.store]
  · simp [addNode, h, State.store]

/-- The node loop, one record further. -/
theorem buildNodes_append_singleton (s : State) (recs : List NodeInfo) (r : NodeInfo) :
    buildNodes s (recs ++ [r]) = addNode (buildNodes s recs) r := by
  simp [buildNodes, List.foldl_append]

/-- Every address in the registry is the address of an allocated Node. -/
theorem buildNodes_registered_lt (recs : List NodeInfo) (k : Int) (a : Nat)
    (h : (buildNodes {} recs).sc.nodes k = some a) : a < (buildNodes {} recs).allocated := by
  induction recs using List.reverseRecOn generalizing k a with
  | nil => simp [buildNodes] at h
  | append_singleton recs r ih =>
    rw [buildNodes_append_singleton] at h ⊢
    cases hl : isEmpty r.label with
    | true =>
      rw [addNode_of_empty _ _ hl] at h ⊢
      exact ih k a h
    | false =>
      obtain ⟨hn, -, ha, -⟩ := addNode_of_label (buildNodes {} recs) r hl
      rw [hn] at h
      rw [ha]
      unfold NodeMap.assign at h
      split_ifs at h with hk
      · simp only [Option.some.injEq] at h
        omega
      · exact Nat.lt_succ_of_lt (ih k a h)

/-- The node loop never creates a Link. -/
theorem buildNodes_links (recs : List NodeInfo) : (buildNodes {} recs).sc.links = [] := by
  induction recs using List.reverseRecOn with
  | nil => rfl
  | append_singleton recs r ih =>
    rw [buildNodes_append_singleton]
    cases hl : isEmpty r.label with
    | true => rw [addNode_of_empty _ _ hl]; exact ih
    | false => rw [(addNode_of_label _ r hl).2.2.2]; exact ih

/-- The registry after the node loop: the Node registered under `id` is the Node
of the last record with this id and a non-empty label, and there is no entry
when there is no such record. -/
theorem buildNodes_lookup (recs : List NodeInfo) (id : Int) :
    (buildNodes {} recs).lookup id
      = ((recs.filter (fun r => r.id = id ∧ isEmpty r.label = false)).getLast?).map
          nodeOfRecord := by
  induction recs using List.reverseRecOn with
  | nil => simp [buildNodes, State.lookup]
  | append_singleton recs r ih =>
    rw [buildNodes_append_singleton, List.filter_append]
    cases hl : isEmpty r.label with
    | true =>
      rw [addNode_of_empty _ _ hl, ih]
      simp [hl]
    | false =>
      obtain ⟨hn, hh, -, -⟩ := addNode_of_label (buildNodes {} recs) r hl
      by_cases hk : r.id = id
      · subst hk
        simp [State.lookup, hn, hh, NodeMap.assign, hl]
      · have hk2 : ¬ id = r.id := fun e => hk e.symm
        have hf : List.filter (fun r => decide (r.id = id ∧ isEmpty r.label = false)) [r] = [] := by
          simp [hk]
        rw [hf, List.append_nil, ← ih]
        unfold State.lookup
        rw [hn, hh]
        simp only [NodeMap.assign, hk2, if_false]
        cases ha : (buildNodes {} recs).sc.nodes id with
        | none => rfl
        | some a =>
          have hlt := buildNodes_registered_lt recs id a ha
          have : a ≠ (buildNodes {} recs).allocated := Nat.ne_of_lt hlt
          simp [this]

/-! ## The link loop of the build -/

/-- One step of the link loop appends the Link of the record, if the record is
valid, and changes nothing else. -/
theorem addLink_eq (s : State) (r : LinkInfo) :
    addLink s r = { s with sc := { s.sc with
      links := s.sc.links ++ (linkOfRecord s r).toList } } := by
  unfold addLink linkOfRecord
  cases h1 : s.sc.nodes r.from_ <;> cases h2 : s.sc.nodes r.to_ <;>
    simp [Link.new, Node.sceneCenter, Node.mapToScene]

/-- The link record's Link exists exactly when the record is valid. -/
theorem linkOfRecord_isSome (s : State) (r : LinkInfo) :
    (linkOfRecord s r).isSome = validLink s.sc.nodes r := by
  unfold linkOfRecord validLink
  cases h1 : s.sc.nodes r.from_ <;> cases h2 : s.sc.nodes r.to_ <;> simp

/-- The Link of a record carries the record's ids. -/
theorem linkOfRecord_ids (s : State) (r : LinkInfo) (l : Link) (h : linkOfRecord s r = some l) :
    l.from_ = r.from_ ∧ l.to_ = r.to_ := by
  unfold linkOfRecord at h
  cases h1 : s.sc.nodes r.from_ <;> cases h2 : s.sc.nodes r.to_ <;> simp [h1, h2] at h
  subst h
  exact ⟨rfl, rfl⟩

/-- The Link of a record depends on the state only through the store and the
registry. -/
theorem linkOfRecord_congr (s t : State) (r : LinkInfo) (hh : t.heap = s.heap)
    (hn : t.sc.nodes = s.sc.nodes) : linkOfRecord t r = linkOfRecord s r := by
  unfold linkOfRecord
  rw [hh, hn]

/-- The link loop leaves the store, the allocation count and the registry
alone, and appends the Links of the valid records in order. -/
theorem buildLinks_eq (s : State) (recs : List LinkInfo) :
    (buildLinks s recs).heap = s.heap
    ∧ (buildLinks s recs).allocated = s.allocated
    ∧ (buildLinks s recs).sc.nodes = s.sc.nodes
    ∧ (buildLinks s recs).sc.links = s.sc.links ++ recs.filterMap (linkOfRecord s) := by
  induction recs generalizing s with
  | nil => simp [buildLinks]
  | cons r recs ih =>
    have hstep : buildLinks s (r :: recs) = buildLinks (addLink s r) recs := rfl
    obtain ⟨h1, h2, h3, h4⟩ := ih (addLink s r)
    rw [hstep, h1, h2, h3, h4]
    have hfm : recs.filterMap (linkOfRecord (addLink s r)) = recs.filterMap (linkOfRecord s) := by
      apply List.filterMap_congr
      intro x _
      apply linkOfRecord_congr <;> rw [addLink_eq]
    rw [hfm, addLink_eq]
    refine ⟨rfl, rfl, rfl, ?_⟩
    cases hl : linkOfRecord s r <;> simp [List.filterMap_cons, hl]

/-- The ids of the Links of the valid records are the ids of the valid
records. -/
theorem filterMap_linkOfRecord_ids (s : State) (recs : List LinkInfo) :
    (recs.filterMap (linkOfRecord s)).map (fun l => (l.from_, l.to_))
      = (recs.filter (validLink s.sc.nodes)).map (fun r => (r.from_, r.to_)) := by
  induction recs with
  | nil => rfl
  | cons r recs ih =>
    have hv := linkOfRecord_isSome s r
    cases hl : linkOfRecord s r with
    | none =>
      rw [hl] at hv
      have hv2 : validLink s.sc.nodes r = false := by simpa using hv.symm
      simp [List.filterMap_cons, hl, hv2, ih]
    | some l =>
      rw [hl] at hv
      have hv2 : validLink s.sc.nodes r = true := by simpa using hv.symm
      obtain ⟨e1, e2⟩ := linkOfRecord_ids s r l hl
      simp [List.filterMap_cons, hl, hv2, ih, e1, e2]

/-! ## C4, C5, C6: the canvas after the build -/

/-- The registry lookup after the whole build: the Node of the last node record
with this id and a non-empty label. -/
theorem build_lookup (objects : Objects) (id : Int) :
    (build objects).lookup id
      = ((objects.nodes.filter (fun r => r.id = id ∧ isEmpty r.label = false)).getLast?).map
          nodeOfRecord := by
  obtain ⟨h1, -, h3, -⟩ := buildLinks_eq (buildNodes {} objects.nodes) objects.links
  rw [← buildNodes_lookup]
  unfold State.lookup build
  rw [h1, h3]

/-- The registry has no entry for an id exactly when every node record with
this id has an empty label. -/
theorem build_nodes_eq_none_iff (objects : Objects) (id : Int) :
    (build objects).sc.nodes id = none
      ↔ ∀ r ∈ objects.nodes, r.id = id → isEmpty r.label = true := by
  have h := build_lookup objects id
  unfold State.lookup at h
  constructor
  · intro hn r hr hid
    have h2 : Option.map nodeOfRecord
        (objects.nodes.filter (fun r => r.id = id ∧ isEmpty r.label = false)).getLast? = none := by
      rw [← h, hn]
      rfl
    rw [Option.map_eq_none', List.getLast?_eq_none_iff, List.filter_eq_nil_iff] at h2
    have := h2 r hr
    simpa [hid] using this
  · intro hall
    have hf : objects.nodes.filter (fun r => r.id = id ∧ isEmpty r.label = false) = [] := by
      rw [List.filter_eq_nil_iff]
      intro r hr
      have := hall r hr
      simp only [decide_eq_true_eq, not_and]
      intro hid
      simp [this hid]
    rw [hf] at h
    simpa using h

/-- C4, as stated, fails: of two node records with id 1, the first with an empty
label and the second labelled "A", the first is a record with an empty label
and yet the lookup of its id after the build finds a Node (the one built from
the second record, at (50, 50)). -/
theorem empty_label_id_can_be_registered :
    (⟨1, ⟨0, 0, 10, 10⟩, ""⟩ : NodeInfo) ∈ emptyThenLabelled
    ∧ isEmpty (⟨1, ⟨0, 0, 10, 10⟩, ""⟩ : NodeInfo).label = true
    ∧ (build ⟨emptyThenLabelled, []⟩).sc.nodes 1 = some 0
    ∧ (build ⟨emptyThenLabelled, []⟩).lookup 1 = some ⟨1, ⟨0, 0, 20, 20⟩, "A", ⟨50, 50⟩⟩ := by
  refine ⟨List.mem_cons_self _ _, rfl, rfl, rfl⟩

/-- C4, amended: for every list of node records and every record in it whose
label is empty, the registry lookup by that record's id fails after the build
if and only if every record with that id has an empty label; and a Node found
under that id never has an empty label (it is not built from that record). -/
theorem empty_label_lookup (objects : Objects) (r : NodeInfo) (hr : r ∈ objects.nodes)
    (he : isEmpty r.label = true) :
    ((build objects).sc.nodes r.id = none
        ↔ ∀ q ∈ objects.nodes, q.id = r.id → isEmpty q.label = true)
    ∧ (∀ n, (build objects).lookup r.id = some n → isEmpty n.text = false ∧ n ≠ nodeOfRecord r) := by
  have _ := hr
  refine ⟨build_nodes_eq_none_iff objects r.id, ?_⟩
  intro n hn
  rw [build_lookup] at hn
  obtain ⟨q, hq, rfl⟩ := Option.map_eq_some'.mp hn
  have hmem := List.mem_of_mem_getLast? hq
  rw [List.mem_filter] at hmem
  have hql : isEmpty q.label = false := (of_decide_eq_true hmem.2).2
  refine ⟨hql, ?_⟩
  intro hqr
  have : q.label = r.label := congrArg Node.text hqr
  rw [this, he] at hql
  exact Bool.noConfusion hql

/-- C4, amended, at a list where the empty-label record has an id of its own:
the lookup of id 3 fails. -/
theorem empty_label_lookup_witness :
    (⟨3, ⟨0, 0, 10, 10⟩, ""⟩ : NodeInfo) ∈ emptyAndOther.nodes
    ∧ isEmpty (⟨3, ⟨0, 0, 10, 10⟩, ""⟩ : NodeInfo).label = true
    ∧ (build emptyAndOther).sc.nodes 3 = none :=
  ⟨List.mem_cons_self _ _, rfl,
    (empty_label_lookup emptyAndOther ⟨3, ⟨0, 0, 10, 10⟩, ""⟩ (List.mem_cons_self _ _) rfl).1.mpr
      (by decide)⟩

/-- C5: after the build, the Node registered under an id is the Node built from
the last node record, in parse order, that has this id and a non-empty label
(the record's id, width, height and label, placed at the record's rectangle
origin); the registry has no entry for the id exactly when there is no such
record; and of two records sharing an id, the second labelled, the entry is the
Node of the second. -/
theorem registry_last_write_wins (objects : Objects) (id : Int) :
    (build objects).lookup id
        = ((objects.nodes.filter (fun r => r.id = id ∧ isEmpty r.label = false)).getLast?).map
            nodeOfRecord
    ∧ ((build objects).sc.nodes id = none
        ↔ ∀ r ∈ objects.nodes, r.id = id → isEmpty r.label = true)
    ∧ (∀ (r1 r2 : NodeInfo) (links : List LinkInfo), r1.id = id → r2.id = id →
        isEmpty r2.label = false →
        (build ⟨[r1, r2], links⟩).lookup id = some (nodeOfRecord r2)) := by
  refine ⟨build_lookup objects id, build_nodes_eq_none_iff objects id, ?_⟩
  intro r1 r2 links h1 h2 hl
  rw [build_lookup]
  by_cases hl1 : isEmpty r1.label = false
  · simp [List.filter_cons, h1, h2, hl, hl1]
  · simp [List.filter_cons, h1, h2, hl, hl1]

/-- C6: for every store, every registry and every list of link records, the link
loop started on an empty link list builds Links whose (from, to) sequence is, in
order, that of the records whose two ids are both keys of the registry; every
built Link has both ids registered; the length of the link list is the number of
valid records; and the loop does not change the registry. -/
theorem links_are_the_valid_records (heap : Nat → Node) (allocated : Nat) (nodes : NodeMap)
    (recs : List LinkInfo) :
    ((buildLinks ⟨heap, allocated, ⟨nodes, []⟩⟩ recs).sc.links.map (fun l => (l.from_, l.to_))
        = (recs.filter (validLink nodes)).map (fun r => (r.from_, r.to_)))
    ∧ (∀ l ∈ (buildLinks ⟨heap, allocated, ⟨nodes, []⟩⟩ recs).sc.links,
        (nodes l.from_).isSome = true ∧ (nodes l.to_).isSome = true)
    ∧ (buildLinks ⟨heap, allocated, ⟨nodes, []⟩⟩ recs).sc.links.length
        = (recs.filter (validLink nodes)).length
    ∧ (buildLinks ⟨heap, allocated, ⟨nodes, []⟩⟩ recs).sc.nodes = nodes := by
  obtain ⟨-, -, h3, h4⟩ := buildLinks_eq ⟨heap, allocated, ⟨nodes, []⟩⟩ recs
  have hids := filterMap_linkOfRecord_ids ⟨heap, allocated, ⟨nodes, []⟩⟩ recs
  simp only [List.nil_append] at h4
  rw [h4]
  refine ⟨hids, ?_, ?_, h3⟩
  · intro l hl
    have hmem : (l.from_, l.to_) ∈ (recs.filter (validLink nodes)).map
        (fun r => (r.from_, r.to_)) := by
      rw [← hids]
      exact List.mem_map_of_mem (fun l => (l.from_, l.to_)) hl
    obtain ⟨r, hr, he⟩ := List.mem_map.mp hmem
    rw [List.mem_filter] at hr
    simp only [Prod.mk.injEq] at he
    have hv := hr.2
    unfold validLink at hv
    rw [he.1, he.2, Bool.and_eq_true] at hv
    exact hv
  · have := congrArg List.length hids
    simpa using this

/-! ## C8: the zoom clamp -/

/-- The scale after a wheel event with the modifier held: the prospective scale
when it lies strictly between 0.01 and 4, the old scale otherwise. -/
theorem wheelEvent_m11 (v : ZoomView) (angle : Int) :
    (v.wheelEvent ⟨true, angle⟩).m11
      = if v.m11 * factor angle > 1 / 100 ∧ v.m11 * factor angle < 4
        then v.m11 * factor angle else v.m11 := by
  simp only [ZoomView.wheelEvent, ZoomView.setTransformationAnchor, ZoomView.scale, if_true]
  split_ifs <;> rfl

/-- After the build, the Node registered under an id carries that id. -/
theorem build_registry_id (objects : Objects) (k : Int) (a : Nat)
    (h : (build objects).sc.nodes k = some a) : ((build objects).heap a).id = k := by
  have hl := build_lookup objects k
  unfold State.lookup at hl
  rw [h, Option.map_some'] at hl
  obtain ⟨q, hq, hqn⟩ := Option.map_eq_some'.mp hl.symm
  have hmem := List.mem_of_mem_getLast? hq
  rw [List.mem_filter] at hmem
  have hid : q.id = k := (of_decide_eq_true hmem.2).1
  rw [← hqn]
  exact hid

/-- After the build, both endpoints of every Link sit on the centres of the
Nodes registered under its ids. -/
theorem build_tracks (objects : Objects) (l : Link) (hl : l ∈ (build objects).sc.links) :
    firstTracks (build objects) l ∧ secondTracks (build objects) l := by
  obtain ⟨h1, -, h3, h4⟩ := buildLinks_eq (buildNodes {} objects.nodes) objects.links
  have hb : build objects = buildLinks (buildNodes {} objects.nodes) objects.links := rfl
  rw [hb] at hl ⊢
  rw [h4, buildNodes_links, List.nil_append, List.mem_filterMap] at hl
  obtain ⟨r, -, hr⟩ := hl
  unfold linkOfRecord at hr
  unfold firstTracks secondTracks
  rw [h1, h3]
  cases hf : (buildNodes {} objects.nodes).sc.nodes r.from_ with
  | none => simp [hf] at hr
  | some a =>
    cases ht : (buildNodes {} objects.nodes).sc.nodes r.to_ with
    | none => simp [hf, ht] at hr
    | some b =>
      simp only [hf, ht, Option.some.injEq] at hr
      subst hr
      exact ⟨⟨a, hf, rfl⟩, ⟨b, ht, rfl⟩⟩

/-- The state after one move: the registry and the allocation count are the
same, the moved Node has the new position, every other Node is the same, and
every Link went through the notification of the moved Node. -/
theorem move_eq (s : State) (a : Nat) (p : QPointF) :
    (s.move a p).sc.nodes = s.sc.nodes
    ∧ (s.move a p).allocated = s.allocated
    ∧ (s.move a p).heap a = { s.heap a with pos := p }
    ∧ (∀ b, b ≠ a → (s.move a p).heap b = s.heap b)
    ∧ (s.move a p).sc.links = s.sc.links.map (Node.syncLink { s.heap a with pos := p } p) := by
  refine ⟨rfl, rfl, ?_, ?_, ?_⟩
  · simp [State.move, State.store]
  · intro b hb
    simp [State.move, State.store, hb]
  · simp [State.move, State.store, Node.itemChange]

/-- A move of a registered Node keeps `Synced`. -/
theorem move_synced (s : State) (a : Nat) (p : QPointF) (hs : Synced s)
    (ha : s.registered a) : Synced (s.move a p) := by
  obtain ⟨hn, -, hha, hhb, hl⟩ := move_eq s a p
  obtain ⟨hid, htr⟩ := hs
  have hsc : ∀ b, b ≠ a → ((s.move a p).heap b).sceneCenter = (s.heap b).sceneCenter := by
    intro b hb
    rw [hhb b hb]
  have hca : ((s.move a p).heap a).sceneCenter
      = p + (Node.boundingRect { s.heap a with pos := p }).center := by
    rw [hha]
    rfl
  have hne : ∀ k x, s.sc.nodes k = some x → k ≠ (s.heap a).id → x ≠ a := by
    intro k x hx hk hxa
    subst hxa
    exact hk (hid k x hx).symm
  constructor
  · intro k b hb
    rw [hn] at hb
    by_cases hba : b = a
    · subst hba
      rw [hha]
      exact hid k b hb
    · rw [hhb b hba]
      exact hid k b hb
  · intro l' hl'
    rw [hl, List.mem_map] at hl'
    obtain ⟨l, hlm, rfl⟩ := hl'
    obtain ⟨⟨x, hx, hp1⟩, h2⟩ := htr l hlm
    obtain ⟨e1, e2⟩ := syncLink_ids { s.heap a with pos := p } p l
    unfold firstTracks secondTracks
    rw [e1, e2, hn]
    by_cases hf : l.from_ = (s.heap a).id
    · have hline := syncLink_of_from { s.heap a with pos := p } p l hf
      have hxa : x = a := by
        unfold State.registered at ha
        rw [hf, ha] at hx
        exact (Option.some.inj hx).symm
      subst hxa
      refine ⟨⟨x, hx, ?_⟩, ?_⟩
      · rw [hline, hca]
      · intro hft
        obtain ⟨y, hy, hp2⟩ := h2 hft
        have hty : l.to_ ≠ (s.heap x).id := fun e => hft (hf.trans e.symm)
        refine ⟨y, hy, ?_⟩
        rw [hline, hsc y (hne _ y hy hty)]
        exact hp2
    · by_cases ht : l.to_ = (s.heap a).id
      · have hline := syncLink_of_to { s.heap a with pos := p } p l hf ht
        refine ⟨⟨x, hx, ?_⟩, ?_⟩
        · rw [hline, hsc x (hne _ x hx hf)]
          exact hp1
        · intro hft
          obtain ⟨y, hy, -⟩ := h2 hft
          have hya : y = a := by
            unfold State.registered at ha
            rw [ht, ha] at hy
            exact (Option.some.inj hy).symm
          subst hya
          refine ⟨y, hy, ?_⟩
          rw [hline, hca]
      · have hsame := syncLink_of_neither { s.heap a with pos := p } p l hf ht
        rw [hsame]
        refine ⟨⟨x, hx, ?_⟩, ?_⟩
        · rw [hsc x (hne _ x hx hf)]
          exact hp1
        · intro hft
          obtain ⟨y, hy, hp2⟩ := h2 hft
          refine ⟨y, hy, ?_⟩
          rw [hsc y (hne _ y hy ht)]
          exact hp2

/-- A move changes neither the registry nor the id of any Node, so it keeps
every Node registered that was. -/
theorem move_registered (s : State) (a : Nat) (p : QPointF) (b : Nat) :
    (s.move a p).registered b ↔ s.registered b := by
  obtain ⟨hn, -, hha, hhb, -⟩ := move_eq s a p
  unfold State.registered
  rw [hn]
  by_cases hba : b = a
  · subst hba
    rw [hha]
  · rw [hhb b hba]

/-- Any sequence of moves of registered Nodes keeps `Synced`. -/
theorem run_synced (moves : List (Nat × QPointF)) (s : State) (hs : Synced s)
    (hm : ∀ m ∈ moves, s.registered m.1) : Synced (s.run moves) := by
  induction moves generalizing s with
  | nil => exact hs
  | cons m moves ih =>
    have hstep : s.run (m :: moves)
        = State.run (if m.1 < s.allocated then s.move m.1 m.2 else s) moves := rfl
    rw [hstep]
    have hm1 := hm m (List.mem_cons_self _ _)
    split_ifs
    · apply ih _ (move_synced s m.1 m.2 hs hm1)
      intro q hq
      exact (move_registered s m.1 m.2 q.1).mpr (hm q (List.mem_cons_of_mem _ hq))
    · exact ih s hs (fun q hq => hm q (List.mem_cons_of_mem _ hq))

/-- C7, as stated, fails: build from three labelled records of which the first
two share id 1, and the link record 1 → 2; then move the Node built from the
first record (address 0, an item of the scene that the registry no longer holds)
to (100, 100). The Link's first endpoint goes to (105, 105), while the Node
registered under id 1 is still the one at address 1, whose position plus centre
offset is (60, 60): the first endpoint does not track the registry Node. -/
theorem move_of_replaced_node_breaks_tracking :
    (0 < (build sharedIdObjects).allocated)
    ∧ ((build sharedIdObjects).run [(0, ⟨100, 100⟩)]).sc.links
        = [⟨⟨⟨105, 105⟩, ⟨8, 8⟩⟩, 1, 2⟩]
    ∧ ((build sharedIdObjects).run [(0, ⟨100, 100⟩)]).sc.nodes 1 = some 1
    ∧ (((build sharedIdObjects).run [(0, ⟨100, 100⟩)]).heap 1).sceneCenter = ⟨60, 60⟩
    ∧ ¬ (∀ l ∈ ((build sharedIdObjects).run [(0, ⟨100, 100⟩)]).sc.links,
          firstTracks ((build sharedIdObjects).run [(0, ⟨100, 100⟩)]) l
          ∧ secondTracks ((build sharedIdObjects).run [(0, ⟨100, 100⟩)]) l) := by
  have hlinks : ((build sharedIdObjects).run [(0, ⟨100, 100⟩)]).sc.links
      = [⟨⟨⟨105, 105⟩, ⟨8, 8⟩⟩, 1, 2⟩] := by with_unfolding_all decide
  have hreg : ((build sharedIdObjects).run [(0, ⟨100, 100⟩)]).sc.nodes 1 = some 1 := by
    decide
  have hc : (((build sharedIdObjects).run [(0, ⟨100, 100⟩)]).heap 1).sceneCenter = ⟨60, 60⟩ := by
    with_unfolding_all decide
  refine ⟨by decide, hlinks, hreg, hc, ?_⟩
  intro hall
  rw [hlinks] at hall
  obtain ⟨⟨a, ha, hp⟩, -⟩ := hall _ (List.mem_singleton.mpr rfl)
  simp only at ha hp
  rw [hreg] at ha
  rw [← Option.some.inj ha, hc] at hp
  exact absurd hp (by decide)

/-- C7, amended: in the state produced by the build and in every state reached
from it by any sequence of moves of registered Nodes (built Nodes that the
registry holds under their id), the first endpoint of every Link equals the
current position plus centre offset of the registry Node for its `from` id, and
the second endpoint of every Link with `from ≠ to` equals that of the registry
Node for its `to` id. -/
theorem endpoints_track_registered_nodes (objects : Objects) (moves : List (Nat × QPointF))
    (hm : ∀ m ∈ moves, (build objects).registered m.1) :
    ∀ l ∈ ((build objects).run moves).sc.links,
      firstTracks ((build objects).run moves) l
      ∧ (l.from_ ≠ l.to_ → secondTracks ((build objects).run moves) l) := by
  have h0 : Synced (build objects) :=
    ⟨build_registry_id objects, fun l hl => ⟨(build_tracks objects l hl).1,
      fun _ => (build_tracks objects l hl).2⟩⟩
  exact (run_synced moves (build objects) h0 hm).2

/-- C7, amended, at a build of two Nodes with the links 1 → 2, 2 → 1 and 1 → 1,
after moving Node 1, then Node 2, then Node 1 again. -/
theorem endpoints_track_registered_nodes_witness :
    (∀ m ∈ [(0, (⟨100, 100⟩ : QPointF)), (1, ⟨-3, 40⟩), (0, ⟨7, 7⟩)],
        (build twoNodeObjects).registered m.1)
    ∧ ∀ l ∈ ((build twoNodeObjects).run [(0, ⟨100, 100⟩), (1, ⟨-3, 40⟩), (0, ⟨7, 7⟩)]).sc.links,
        firstTracks ((build twoNodeObjects).run [(0, ⟨100, 100⟩), (1, ⟨-3, 40⟩), (0, ⟨7, 7⟩)]) l
        ∧ (l.from_ ≠ l.to_ →
          secondTracks ((build twoNodeObjects).run [(0, ⟨100, 100⟩), (1, ⟨-3, 40⟩), (0, ⟨7, 7⟩)]) l) :=
  ⟨by decide,
    endpoints_track_registered_nodes twoNodeObjects
      [(0, ⟨100, 100⟩), (1, ⟨-3, 40⟩), (0, ⟨7, 7⟩)] (by decide)⟩

/-! ## The preamble stripping when the first byte is not a newline -/

/-- The scanning loop of `indexOf` on bytes that hold the byte searched: it
returns the index of the first occurrence, and what follows that occurrence is
what follows the first line. -/
theorem indexOfLoop_of_mem (ch : Nat) (l : List Nat) (i : Nat) (h : ch ∈ l) :
    ∃ j : Nat, indexOfLoop ch l i = ((i + j : Nat) : Int) ∧ j < l.length
      ∧ l.drop (j + 1) = (l.dropWhile (fun b => b != ch)).drop 1 := by
  induction l generalizing i with
  | nil => simp at h
  | cons b t ih =>
    by_cases hb : b = ch
    · exact ⟨0, by simp [indexOfLoop, hb], by simp, by simp [List.dropWhile_cons, hb]⟩
    · have ht : ch ∈ t := by
        rcases List.mem_cons.mp h with e | e
        · exact absurd e.symm hb
        · exact e
      obtain ⟨j, h1, h2, h3⟩ := ih (i + 1) ht
      refine ⟨j + 1, ?_, by simp; omega, ?_⟩
      · simp only [indexOfLoop, hb, if_false, h1]
        omega
      · simp only [List.drop_succ_cons, List.dropWhile_cons, bne_iff_ne, ne_eq, hb,
          not_false_eq_true, decide_True, if_true]
        rw [h3]

/-- Removing the first line removes one newline. -/
theorem count_drop_line (ch : Nat) (l : List Nat) (h : ch ∈ l) :
    ((l.dropWhile (fun b => b != ch)).drop 1).count ch + 1 = l.count ch := by
  induction l with
  | nil => simp at h
  | cons b t ih =>
    by_cases hb : b = ch
    · subst hb
      simp [List.dropWhile_cons]
    · have ht : ch ∈ t := by
        rcases List.mem_cons.mp h with e | e
        · exact absurd e.symm hb
        · exact e
      have hbne : (b != ch) = true := by simpa using hb
      rw [List.dropWhile_cons, if_pos hbne, ih ht, List.count_cons_of_ne (Ne.symm hb)]

/-- `indexOf` from an index `k` inside the data, when a newline occurs at or
after `k`: the result is an index `k1 - 1` with `k < k1`, and the bytes from
`k1` on are the bytes from `k` on without their first line. -/
theorem indexOf_of_mem (dat : QByteArray) (k : Nat) (h : newline ∈ dat.drop k) :
    ∃ k1 : Nat, indexOf dat newline (k : Int) + 1 = (k1 : Int) ∧ k < k1 ∧ k1 ≤ dat.length
      ∧ dat.drop k1 = ((dat.drop k).dropWhile (fun b => b != newline)).drop 1 := by
  have hk : k < dat.length := by
    by_contra hge
    rw [List.drop_eq_nil_of_le (Nat.le_of_not_lt hge)] at h
    simp at h
  obtain ⟨j, h1, h2, h3⟩ := indexOfLoop_of_mem newline (dat.drop k) k h
  refine ⟨k + j + 1, ?_, by omega, ?_, ?_⟩
  · have hneg : ¬ ((k : Int) < 0) := by omega
    have hlt : (k : Int) < (dat.length : Int) := by omega
    simp only [indexOf, hneg, if_false, hlt, if_true, Int.toNat_ofNat, h1]
    push_cast
    ring
  · rw [List.length_drop] at h2
    omega
  · rw [← h3, List.drop_drop]
    congr 1

/-- The search loop started just before index `k`, when the bytes from `k` on
hold at least `n` newlines: it ends just before an index `k1`, and the bytes
from `k1` on are the bytes from `k` on without their first `n` lines. -/
theorem scanNewlines_of_count (dat : QByteArray) (n : Nat) (k : Nat) (cur_idx : Int)
    (hc : cur_idx + 1 = (k : Int)) (hn : n ≤ (dat.drop k).count newline) :
    ∃ k1 : Nat, scanNewlines dat n cur_idx + 1 = (k1 : Int) ∧ k ≤ k1 ∧ (0 < n → k < k1)
      ∧ dat.drop k1 = dropLines n (dat.drop k) := by
  induction n generalizing k cur_idx with
  | zero => exact ⟨k, by simpa [scanNewlines] using hc, le_refl _, by simp, rfl⟩
  | succ n ih =>
    have hmem : newline ∈ dat.drop k := by
      apply List.count_pos_iff.mp
      omega
    obtain ⟨k1, e1, e2, e3, e4⟩ := indexOf_of_mem dat k hmem
    have hcnt : n ≤ (dat.drop k1).count newline := by
      have := count_drop_line newline (dat.drop k) hmem
      rw [e4]
      omega
    obtain ⟨k2, f1, f2, -, f5⟩ := ih k1 (indexOf dat newline (k : Int)) e1 hcnt
    refine ⟨k2, ?_, by omega, by omega, ?_⟩
    · simp only [scanNewlines, hc]
      exact f1
    · rw [f5, e4]
      rfl

/-- On data whose first byte is not a newline and that hold at least five
newlines, the stripping removes exactly the prefix up to and including the
fifth newline. -/
theorem stripPreamble_of_first_not_newline (dat : QByteArray)
    (h0 : dat.head? ≠ some newline) (h5 : 5 ≤ dat.count newline) :
    stripPreamble dat = dropLines 5 dat := by
  cases dat with
  | nil => simp at h5
  | cons b t =>
    have hb : b ≠ newline := by simpa using h0
    have hcnt : 5 ≤ ((b :: t).drop 1).count newline := by
      rw [List.count_cons_of_ne (Ne.symm hb)] at h5
      simpa using h5
    obtain ⟨k1, e1, e2, e3, e5⟩ := scanNewlines_of_count (b :: t) 5 1 0 (by norm_num) hcnt
    have hpos : 1 < k1 := e3 (by norm_num)
    have hbne : (b != newline) = true := by simpa using hb
    have hdrop : dropLines 5 (b :: t) = dropLines 5 ((b :: t).drop 1) := by
      show dropLines 4 (((b :: t).dropWhile (fun b => b != newline)).drop 1) = _
      rw [List.dropWhile_cons, if_pos hbne]
      rfl
    unfold stripPreamble
    simp only [e1]
    rw [hdrop, ← e5]
    have hlen : ¬ ((k1 : Int) ≤ 0 ∨ (0 : Int) < 0 ∨ (((b :: t).length : Nat) : Int) ≤ 0) := by
      simp only [List.length_cons]
      omega
    simp only [remove, hlen, if_false]
    simp

/-- The stripping on "a\nb\nc\nd\ne\n<a/>\n": the five preamble lines go, the
document and the newline after it stay. -/
theorem stripPreamble_fiveLinePreamble :
    stripPreamble fiveLinePreamble = [60, 97, 47, 62, 10]
    ∧ dropLines 5 fiveLinePreamble = [60, 97, 47, 62, 10] := by
  decide

/-! ## C9: the preamble stripping -/

/-- C9: on the bytes of "\nA\nB\nC\nD\n<a/>", which hold five newlines and start
with one, the first search starts at index 1 and skips the newline at index 0,
the fifth search finds nothing, and the stripping removes nothing, where the
prefix up to and including the fifth newline would leave "<a/>"; on six newlines
followed by "<a/>" the stripping removes the prefix through the sixth newline,
where the removal through the fifth would leave a newline and "<a/>". -/
theorem leading_newline_is_not_counted :
    emptyFirstLine.count newline = 5
    ∧ scanNewlines emptyFirstLine 5 0 = -1
    ∧ stripPreamble emptyFirstLine = emptyFirstLine
    ∧ dropLines 5 emptyFirstLine = [60, 97, 47, 62]
    ∧ sixNewlines.count newline = 6
    ∧ scanNewlines sixNewlines 5 0 = 5
    ∧ stripPreamble sixNewlines = [60, 97, 47, 62]
    ∧ dropLines 5 sixNewlines = [10, 60, 97, 47, 62] := by
  decide

/-! ## parseChild: the fields read from the attributes -/

/-- The effect of one attribute on `label`. -/
theorem parseAttr_label (v : ParseVars) (a : String × String) :
    (parseAttr v a).label = if a.1 = "label" then a.2 else v.label := by
  obtain ⟨n, t⟩ := a
  unfold parseAttr attrText
  by_cases h1 : n = "label" <;> by_cases h2 : n = "ID" <;> by_cases h3 : n = "x" <;>
    by_cases h4 : n = "y" <;> by_cases h5 : n = "width" <;> by_cases h6 : n = "height" <;>
    by_cases h7 : n = "xsi:type" <;> by_cases h8 : t = "link" <;> simp_all

/-- The effect of one attribute on `id`. -/
theorem parseAttr_id (v : ParseVars) (a : String × String) :
    (parseAttr v a).id = if a.1 = "ID" then toInt a.2 else v.id := by
  obtain ⟨n, t⟩ := a
  unfold parseAttr attrText
  by_cases h1 : n = "label" <;> by_cases h2 : n = "ID" <;> by_cases h3 : n = "x" <;>
    by_cases h4 : n = "y" <;> by_cases h5 : n = "width" <;> by_cases h6 : n = "height" <;>
    by_cases h7 : n = "xsi:type" <;> by_cases h8 : t = "link" <;> simp_all

/-- The effect of one attribute on `x`. -/
theorem parseAttr_x (v : ParseVars) (a : String × String) :
    (parseAttr v a).x = if a.1 = "x" then toDouble a.2 else v.x := by
  obtain ⟨n, t⟩ := a
  unfold parseAttr attrText
  by_cases h1 : n = "label" <;> by_cases h2 : n = "ID" <;> by_cases h3 : n = "x" <;>
    by_cases h4 : n = "y" <;> by_cases h5 : n = "width" <;> by_cases h6 : n = "height" <;>
    by_cases h7 : n = "xsi:type" <;> by_cases h8 : t = "link" <;> simp_all

/-- The effect of one attribute on `y`. -/
theorem parseAttr_y (v : ParseVars) (a : String × String) :
    (parseAttr v a).y = if a.1 = "y" then toDouble a.2 else v.y := by
  obtain ⟨n, t⟩ := a
  unfold parseAttr attrText
  by_cases h1 : n = "label" <;> by_cases h2 : n = "ID" <;> by_cases h3 : n = "x" <;>
    by_cases h4 : n = "y" <;> by_cases h5 : n = "width" <;> by_cases h6 : n = "height" <;>
    by_cases h7 : n = "xsi:type" <;> by_cases h8 : t = "link" <;> simp_all

/-- The effect of one attribute on `w`. -/
theorem parseAttr_w (v : ParseVars) (a : String × String) :
    (parseAttr v a).w = if a.1 = "width" then toDouble a.2 else v.w := by
  obtain ⟨n, t⟩ := a
  unfold parseAttr attrText
  by_cases h1 : n = "label" <;> by_cases h2 : n = "ID" <;> by_cases h3 : n = "x" <;>
    by_cases h4 : n = "y" <;> by_cases h5 : n = "width" <;> by_cases h6 : n = "height" <;>
    by_cases h7 : n = "xsi:type" <;> by_cases h8 : t = "link" <;> simp_all

/-- The effect of one attribute on `h`. -/
theorem parseAttr_h (v : ParseVars) (a : String × String) :
    (parseAttr v a).h = if a.1 = "height" then toDouble a.2 else v.h := by
  obtain ⟨n, t⟩ := a
  unfold parseAttr attrText
  by_cases h1 : n = "label" <;> by_cases h2 : n = "ID" <;> by_cases h3 : n = "x" <;>
    by_cases h4 : n = "y" <;> by_cases h5 : n = "width" <;> by_cases h6 : n = "height" <;>
    by_cases h7 : n = "xsi:type" <;> by_cases h8 : t = "link" <;> simp_all

/-- A variable that each attribute named `nm` overwrites with `g` of its value,
and that no other attribute touches, holds after the attribute loop `g` of the
value of the last attribute named `nm`, or its initial value when there is
none. -/
theorem foldl_parseAttr_field {α : Type} (f : ParseVars → α) (nm : String) (g : String → α)
    (hstep : ∀ v a, f (parseAttr v a) = if a.1 = nm then g a.2 else f v)
    (attrs : List (String × String)) (v : ParseVars) :
    f (attrs.foldl parseAttr v)
      = match (attrs.filter (fun a => a.1 = nm)).getLast? with
        | some a => g a.2
        | none => f v := by
  induction attrs using List.reverseRecOn with
  | nil => simp
  | append_singleton attrs a ih =>
    rw [List.foldl_append, List.foldl_cons, List.foldl_nil, List.filter_append, hstep]
    by_cases h : a.1 = nm
    · simp [h]
    · have hf : List.filter (fun a => decide (a.1 = nm)) [a] = [] := by simp [h]
      rw [hf, List.append_nil, if_neg h, ih]

/-- On attributes with distinct names, the last attribute named `nm` is the
first. -/
theorem filter_getLast_eq_find (nm : String) (attrs : List (String × String))
    (hnd : (attrs.map Prod.fst).Nodup) :
    (attrs.filter (fun a => a.1 = nm)).getLast? = attrs.find? (fun a => a.1 = nm) := by
  induction attrs with
  | nil => rfl
  | cons a t ih =>
    rw [List.map_cons, List.nodup_cons] at hnd
    by_cases h : a.1 = nm
    · have ht : t.filter (fun a => decide (a.1 = nm)) = [] := by
        rw [List.filter_eq_nil_iff]
        intro b hb hbn
        apply hnd.1
        rw [h, ← of_decide_eq_true hbn]
        exact List.mem_map_of_mem Prod.fst hb
      simp [List.filter_cons, List.find?_cons, h, ht]
    · simp [List.filter_cons, List.find?_cons, h, ih hnd.2]

/-- On attributes with distinct names, the attribute found under a name is any
attribute of that name. -/
theorem find_eq_some_iff_mem (nm : String) (attrs : List (String × String))
    (hnd : (attrs.map Prod.fst).Nodup) (a : String × String) :
    attrs.find? (fun b => b.1 = nm) = some a ↔ a ∈ attrs ∧ a.1 = nm := by
  constructor
  · intro h
    have hp := List.find?_some h
    exact ⟨List.mem_of_find?_eq_some h, of_decide_eq_true hp⟩
  · intro ⟨hm, hn⟩
    induction attrs with
    | nil => simp at hm
    | cons b t ih =>
      rw [List.map_cons, List.nodup_cons] at hnd
      by_cases hb : b.1 = nm
      · have hab : a = b := by
          rcases List.mem_cons.mp hm with e | e
          · exact e
          · exfalso
            apply hnd.1
            rw [hb, ← hn]
            exact List.mem_map_of_mem Prod.fst e
        simp [List.find?_cons, hb, hab]
      · have hat : a ∈ t := by
          rcases List.mem_cons.mp hm with e | e
          · rw [e] at hn
            exact absurd hn hb
          · exact e
        simp only [List.find?_cons, hb, decide_False]
        exact ih hnd.2 hat

/-- The value of an attribute does not depend on the order of the attributes. -/
theorem attrValue_perm (nm : String) (attrs attrs2 : List (String × String))
    (hnd : (attrs.map Prod.fst).Nodup) (hp : attrs.Perm attrs2) :
    attrValue nm attrs2 = attrValue nm attrs := by
  have hnd2 : (attrs2.map Prod.fst).Nodup := (hp.map Prod.fst).nodup_iff.mp hnd
  have hfind : attrs2.find? (fun b => b.1 = nm) = attrs.find? (fun b => b.1 = nm) := by
    apply Option.ext
    intro a
    rw [Option.mem_def, Option.mem_def, find_eq_some_iff_mem nm attrs2 hnd2,
      find_eq_some_iff_mem nm attrs hnd, hp.mem_iff]
  unfold attrValue
  rw [hfind]

/-- A variable of the attribute loop, on attributes with distinct names: `g` of
the value of the attribute named `nm`, or the initial value when the attribute
is absent. -/
theorem foldl_parseAttr_field_nodup {α : Type} (f : ParseVars → α) (nm : String)
    (g : String → α)
    (hstep : ∀ v a, f (parseAttr v a) = if a.1 = nm then g a.2 else f v)
    (attrs : List (String × String)) (hnd : (attrs.map Prod.fst).Nodup) (v : ParseVars) :
    f (attrs.foldl parseAttr v)
      = match attrValue nm attrs with
        | some t => g t
        | none => f v := by
  rw [foldl_parseAttr_field f nm g hstep, filter_getLast_eq_find nm attrs hnd]
  unfold attrValue
  cases List.find? (fun a => decide (a.1 = nm)) attrs <;> rfl

/-- The record of a node without an attribute `xsi:type="link"`, on attributes
with distinct names: the node record made of the attribute values. -/
theorem parseChild_of_node_kind (node : QDomNode)
    (hnd : (node.attributes.map Prod.fst).Nodup)
    (hk : ¬ ∃ a ∈ node.attributes, a.1 = "xsi:type" ∧ a.2 = "link") :
    parseChild node
      = VueElement.node
          { id := intAttr "ID" node.attributes,
            rect := ⟨doubleAttr "x" node.attributes, doubleAttr "y" node.attributes,
              doubleAttr "width" node.attributes, doubleAttr "height" node.attributes⟩,
            label := textAttr "label" node.attributes } := by
  have hkind : (node.attributes.foldl parseAttr {}).kind = Kind.Node := by
    cases hc : (node.attributes.foldl parseAttr {}).kind with
    | Node => rfl
    | Link =>
      rcases (foldl_parseAttr_kind _ _).mp hc with h | h
      · exact absurd h (by decide)
      · exact absurd h hk
  have h1 := foldl_parseAttr_field_nodup ParseVars.id "ID" toInt parseAttr_id _ hnd {}
  have h2 := foldl_parseAttr_field_nodup ParseVars.x "x" toDouble parseAttr_x _ hnd {}
  have h3 := foldl_parseAttr_field_nodup ParseVars.y "y" toDouble parseAttr_y _ hnd {}
  have h4 := foldl_parseAttr_field_nodup ParseVars.w "width" toDouble parseAttr_w _ hnd {}
  have h5 := foldl_parseAttr_field_nodup ParseVars.h "height" toDouble parseAttr_h _ hnd {}
  have h6 := foldl_parseAttr_field_nodup ParseVars.label "label" id parseAttr_label _ hnd {}
  unfold parseChild
  simp only [hkind, h1, h2, h3, h4, h5, h6]
  rfl

/-! ## C11: the node record -/

/-- C11: for every element without an attribute `xsi:type="link"` (attribute
names distinct, as in every element), the emitted record is the node record
with id = the integer value of attribute `ID`, rect = the values of the
attributes `x`, `y`, `width`, `height`, and label = the value of attribute
`label` (0 or empty for an absent attribute); and an element with the same
attributes in any other order, and any other tag name and children, gets the
same record. -/
theorem node_record_content (tag tag2 : String) (attrs attrs2 : List (String × String))
    (children children2 : List QDomNode) (hnd : (attrs.map Prod.fst).Nodup)
    (hp : attrs.Perm attrs2) (hk : ¬ ∃ a ∈ attrs, a.1 = "xsi:type" ∧ a.2 = "link") :
    parseChild (.element tag attrs children)
        = VueElement.node
            { id := intAttr "ID" attrs,
              rect := ⟨doubleAttr "x" attrs, doubleAttr "y" attrs,
                doubleAttr "width" attrs, doubleAttr "height" attrs⟩,
              label := textAttr "label" attrs }
    ∧ parseChild (.element tag2 attrs2 children2) = parseChild (.element tag attrs children) := by
  have hnd2 : (attrs2.map Prod.fst).Nodup := (hp.map Prod.fst).nodup_iff.mp hnd
  have hk2 : ¬ ∃ a ∈ attrs2, a.1 = "xsi:type" ∧ a.2 = "link" := by
    rintro ⟨a, ha, h⟩
    exact hk ⟨a, hp.mem_iff.mpr ha, h⟩
  have e1 := parseChild_of_node_kind (.element tag attrs children) hnd hk
  have e2 := parseChild_of_node_kind (.element tag2 attrs2 children2) hnd2 hk2
  refine ⟨e1, ?_⟩
  rw [e1, e2]
  simp only [QDomNode.attributes, intAttr, doubleAttr, textAttr, attrValue_perm _ attrs attrs2 hnd hp]

/-- C11, on the example of the specification, with the attributes also in
reverse order: `ID` "1", `label` "A", `x` "0", `y` "0", `width` "10", `height`
"10" give the record {id: 1, rect: (0, 0, 10, 10), label: "A"}. -/
theorem node_record_content_witness :
    (nodeExampleAttrs.map Prod.fst).Nodup
    ∧ nodeExampleAttrs.Perm nodeExampleAttrs.reverse
    ∧ (¬ ∃ a ∈ nodeExampleAttrs, a.1 = "xsi:type" ∧ a.2 = "link")
    ∧ parseChild (.element "child" nodeExampleAttrs []) = VueElement.node ⟨1, ⟨0, 0, 10, 10⟩, "A"⟩
    ∧ parseChild (.element "child" nodeExampleAttrs.reverse [.element "ID1" [] [.text "3"]])
        = VueElement.node ⟨1, ⟨0, 0, 10, 10⟩, "A"⟩ :=
  have h := node_record_content "child" "child" nodeExampleAttrs nodeExampleAttrs.reverse []
    [.element "ID1" [] [.text "3"]] (by decide) (List.reverse_perm _).symm (by decide)
  have hv : (VueElement.node
      { id := intAttr "ID" nodeExampleAttrs,
        rect := ⟨doubleAttr "x" nodeExampleAttrs, doubleAttr "y" nodeExampleAttrs,
          doubleAttr "width" nodeExampleAttrs, doubleAttr "height" nodeExampleAttrs⟩,
        label := textAttr "label" nodeExampleAttrs } : VueElement)
      = VueElement.node ⟨1, ⟨0, 0, 10, 10⟩, "A"⟩ := by with_unfolding_all decide
  ⟨by decide, (List.reverse_perm _).symm, by decide, h.1.trans hv, (h.2.trans h.1).trans hv⟩

/-! ## C12: defaults -/

/-- A text that `toInt` does not accept converts to 0. -/
theorem toInt_of_parseInt_none (t : String) (h : parseInt t = none) : toInt t = 0 := by
  unfold toInt
  rw [h]
  rfl

/-- A text that `toDouble` does not accept converts to 0. -/
theorem toDouble_of_parseDouble_none (t : String) (h : parseDouble t = none) :
    toDouble t = 0 := by
  unfold toDouble
  rw [h]
  rfl

/-- A variable of the attribute loop keeps a value `d` that it starts with and
that every attribute named `nm` would write. -/
theorem foldl_parseAttr_field_default {α : Type} (f : ParseVars → α) (nm : String)
    (g : String → α)
    (hstep : ∀ v a, f (parseAttr v a) = if a.1 = nm then g a.2 else f v)
    (attrs : List (String × String)) (v : ParseVars) (d : α) (hv : f v = d)
    (hall : ∀ a ∈ attrs, a.1 = nm → g a.2 = d) : f (attrs.foldl parseAttr v) = d := by
  rw [foldl_parseAttr_field f nm g hstep]
  cases hl : (attrs.filter (fun a => a.1 = nm)).getLast? with
  | none => exact hv
  | some a =>
    have hm := List.mem_of_mem_getLast? hl
    rw [List.mem_filter] at hm
    exact hall a hm.1 (of_decide_eq_true hm.2)

/-- A node record is made of the variables of the attribute loop. -/
theorem parseChild_eq_node (node : QDomNode) (n : NodeInfo)
    (h : parseChild node = VueElement.node n) :
    n = { id := (node.attributes.foldl parseAttr {}).id,
          rect := ⟨(node.attributes.foldl parseAttr {}).x, (node.attributes.foldl parseAttr {}).y,
            (node.attributes.foldl parseAttr {}).w, (node.attributes.foldl parseAttr {}).h⟩,
          label := (node.attributes.foldl parseAttr {}).label } := by
  unfold parseChild at h
  cases hk : (node.attributes.foldl parseAttr {}).kind with
  | Link => simp [hk] at h
  | Node =>
    simp only [hk, VueElement.node.injEq] at h
    exact h.symm

/-- A link record is the result of the child-element loop. -/
theorem parseChild_eq_link (node : QDomNode) (l : LinkInfo)
    (h : parseChild node = VueElement.link l) :
    l = node.childElements.foldl parseLinkChild {} := by
  unfold parseChild at h
  cases hk : (node.attributes.foldl parseAttr {}).kind with
  | Node => simp [hk] at h
  | Link =>
    simp only [hk, VueElement.link.injEq] at h
    exact h.symm

/-- C12: `parseChild` emits one record, a node record or a link record, for every
node it is given, and the loop of `main` adds exactly one record per child
named `child`. In a node record, a numeric field (id, x, y, width, height)
is 0 when no attribute of its name has a text that parses as a number (the
attribute is absent, or its text does not parse), and the label is empty when
there is no attribute `label`. In a link record, `from` (`to`) is 0 when no
child element `ID1` (`ID2`) has a text that parses as an integer. -/
theorem parse_is_permissive (node : QDomNode) :
    ((∃ n, parseChild node = VueElement.node n) ∨ (∃ l, parseChild node = VueElement.link l))
    ∧ (∀ o : Objects, node.nodeName = "child" →
        (collectStep o node).nodes.length + (collectStep o node).links.length
          = o.nodes.length + o.links.length + 1)
    ∧ (∀ n, parseChild node = VueElement.node n →
        ((∀ a ∈ node.attributes, a.1 = "ID" → parseInt a.2 = none) → n.id = 0)
        ∧ ((∀ a ∈ node.attributes, a.1 = "x" → parseDouble a.2 = none) → n.rect.x = 0)
        ∧ ((∀ a ∈ node.attributes, a.1 = "y" → parseDouble a.2 = none) → n.rect.y = 0)
        ∧ ((∀ a ∈ node.attributes, a.1 = "width" → parseDouble a.2 = none) → n.rect.width = 0)
        ∧ ((∀ a ∈ node.attributes, a.1 = "height" → parseDouble a.2 = none) →
            n.rect.height = 0)
        ∧ ((∀ a ∈ node.attributes, a.1 ≠ "label") → n.label = ""))
    ∧ (∀ l, parseChild node = VueElement.link l →
        ((∀ e ∈ node.childElements, e.nodeName = "ID1" → parseInt e.firstChildText = none) →
            l.from_ = 0)
        ∧ ((∀ e ∈ node.childElements, e.nodeName = "ID2" → parseInt e.firstChildText = none) →
            l.to_ = 0)) := by
  refine ⟨?_, ?_, ?_, ?_⟩
  · cases h : parseChild node with
    | node n => exact Or.inl ⟨n, rfl⟩
    | link l => exact Or.inr ⟨l, rfl⟩
  · intro o hn
    unfold collectStep
    rw [if_pos hn]
    cases parseChild node with
    | node n => simp [Objects.visit]; omega
    | link l => simp [Objects.visit]; omega
  · intro n hn
    rw [parseChild_eq_node node n hn]
    refine ⟨?_, ?_, ?_, ?_, ?_, ?_⟩
    · intro hall
      exact foldl_parseAttr_field_default ParseVars.id "ID" toInt parseAttr_id _ _ 0 rfl
        (fun a ha hnm => toInt_of_parseInt_none _ (hall a ha hnm))
    · intro hall
      exact foldl_parseAttr_field_default ParseVars.x "x" toDouble parseAttr_x _ _ 0 rfl
        (fun a ha hnm => toDouble_of_parseDouble_none _ (hall a ha hnm))
    · intro hall
      exact foldl_parseAttr_field_default ParseVars.y "y" toDouble parseAttr_y _ _ 0 rfl
        (fun a ha hnm => toDouble_of_parseDouble_none _ (hall a ha hnm))
    · intro hall
      exact foldl_parseAttr_field_default ParseVars.w "width" toDouble parseAttr_w _ _ 0 rfl
        (fun a ha hnm => toDouble_of_parseDouble_none _ (hall a ha hnm))
    · intro hall
      exact foldl_parseAttr_field_default ParseVars.h "height" toDouble parseAttr_h _ _ 0 rfl
        (fun a ha hnm => toDouble_of_parseDouble_none _ (hall a ha hnm))
    · intro hall
      exact foldl_parseAttr_field_default ParseVars.label "label" id parseAttr_label _ _ "" rfl
        (fun a ha hnm => absurd hnm (hall a ha))
  · intro l hl
    rw [parseChild_eq_link node l hl]
    constructor
    · intro hall
      rw [foldl_parseLinkChild_from]
      cases hg : (node.childElements.filter (fun e => e.nodeName = "ID1")).getLast? with
      | none => rfl
      | some e =>
        have hm := List.mem_of_mem_getLast? hg
        rw [List.mem_filter] at hm
        exact toInt_of_parseInt_none _ (hall e hm.1 (of_decide_eq_true hm.2))
    · intro hall
      rw [foldl_parseLinkChild_to]
      cases hg : (node.childElements.filter (fun e => e.nodeName = "ID2")).getLast? with
      | none => rfl
      | some e =>
        have hm := List.mem_of_mem_getLast? hg
        rw [List.mem_filter] at hm
        exact toInt_of_parseInt_none _ (hall e hm.1 (of_decide_eq_true hm.2))

/-! ## C13: the two record sequences -/

/-- The kind decides the record: a link record for a node with
`xsi:type="link"`, a node record for every other node. -/
theorem parseChild_cases (c : QDomNode) :
    (hasLinkType c = true ∧ ∃ l, parseChild c = VueElement.link l)
    ∨ (hasLinkType c = false ∧ ∃ n, parseChild c = VueElement.node n) := by
  have hiff : hasLinkType c = true ↔ ∃ a ∈ c.attributes, a.1 = "xsi:type" ∧ a.2 = "link" := by
    simp [hasLinkType, List.any_eq_true]
  have hk := foldl_parseAttr_kind c.attributes {}
  cases hc : parseChild c with
  | link l =>
    left
    refine ⟨?_, l, rfl⟩
    rw [hiff]
    rcases hk.mp ((parseChild_link_iff c).mp ⟨l, hc⟩) with h | h
    · exact absurd h (by decide)
    · exact h
  | node n =>
    right
    refine ⟨?_, n, rfl⟩
    cases hl : hasLinkType c with
    | false => rfl
    | true =>
      obtain ⟨l, hl2⟩ := (parseChild_link_iff c).mpr (hk.mpr (Or.inr (hiff.mp hl)))
      rw [hc] at hl2
      exact VueElement.noConfusion hl2

/-- The loop of `main` over the children, from any state of the visitor: the
node records gain those of the node children, the link records those of the
link children, both in document order. -/
theorem foldl_collectStep (children : List QDomNode) (o : Objects) :
    (children.foldl collectStep o).nodes.map VueElement.node
        = o.nodes.map VueElement.node ++ (nodeChildren children).map parseChild
    ∧ (children.foldl collectStep o).links.map VueElement.link
        = o.links.map VueElement.link ++ (linkChildren children).map parseChild := by
  induction children generalizing o with
  | nil => simp [nodeChildren, linkChildren]
  | cons c children ih =>
    rw [List.foldl_cons]
    obtain ⟨ih1, ih2⟩ := ih (collectStep o c)
    rw [ih1, ih2]
    unfold collectStep nodeChildren linkChildren
    by_cases hn : c.nodeName = "child"
    · rcases parseChild_cases c with ⟨hk, l, hl⟩ | ⟨hk, n, hnode⟩
      · simp [hn, hk, hl, Objects.visit, List.filter_cons]
      · simp [hn, hk, hnode, Objects.visit, List.filter_cons]
    · simp [hn, List.filter_cons]

/-- C13: for every root, the node-record sequence is, in document order,
`parseChild` applied to exactly the children named `child` whose kind is node,
the link-record sequence is `parseChild` applied to exactly the children named
`child` whose kind is link, a child of any other name adds no record, and the
two lengths sum to the number of children named `child`. -/
theorem record_partition (doc : QDomNode) :
    (collect doc).nodes.map VueElement.node = (nodeChildren doc.childNodes).map parseChild
    ∧ (collect doc).links.map VueElement.link = (linkChildren doc.childNodes).map parseChild
    ∧ (∀ (o : Objects) (c : QDomNode), c.nodeName ≠ "child" → collectStep o c = o)
    ∧ (collect doc).nodes.length + (collect doc).links.length
        = (doc.childNodes.filter (fun c => c.nodeName = "child")).length := by
  obtain ⟨h1, h2⟩ := foldl_collectStep doc.childNodes {}
  have e1 : (collect doc).nodes.map VueElement.node
      = (nodeChildren doc.childNodes).map parseChild := by
    unfold collect
    rw [h1]
    rfl
  have e2 : (collect doc).links.map VueElement.link
      = (linkChildren doc.childNodes).map parseChild := by
    unfold collect
    rw [h2]
    rfl
  refine ⟨e1, e2, ?_, ?_⟩
  · intro o c hc
    unfold collectStep
    rw [if_neg hc]
  · have l1 := congrArg List.length e1
    have l2 := congrArg List.length e2
    rw [List.length_map, List.length_map] at l1 l2
    rw [l1, l2]
    unfold nodeChildren linkChildren
    generalize doc.childNodes = cs
    induction cs with
    | nil => rfl
    | cons c cs ih =>
      by_cases hn : c.nodeName = "child"
      · cases hk : hasLinkType c <;> simp [List.filter_cons, hn, hk] <;> omega
      · simpa [List.filter_cons, hn] using ih

/-! ## C14: the initial link geometry -/

/-- The centre of the Node of a record is the centre of the record's rectangle. -/
theorem sceneCenter_nodeOfRecord (r : NodeInfo) :
    (nodeOfRecord r).sceneCenter = recordCenter r := by
  unfold Node.sceneCenter
  rw [boundingRect_center]
  show QPointF.add _ _ = _
  simp [QPointF.add, nodeOfRecord, recordCenter]

/-- After the node loop, the registry has an address for an id exactly when the
id has a source record, and the Node at that address is the Node of the source
record. -/
theorem buildNodes_nodes_cases (nodes : List NodeInfo) (id : Int) :
    ((buildNodes {} nodes).sc.nodes id = none ∧ lastLabelled nodes id = none)
    ∨ ∃ a r, (buildNodes {} nodes).sc.nodes id = some a ∧ lastLabelled nodes id = some r
        ∧ (buildNodes {} nodes).heap a = nodeOfRecord r := by
  have h := buildNodes_lookup nodes id
  unfold State.lookup at h
  unfold lastLabelled
  cases ha : (buildNodes {} nodes).sc.nodes id with
  | none =>
    left
    rw [ha] at h
    refine ⟨rfl, ?_⟩
    have h2 := h.symm
    rw [Option.map_none', Option.map_eq_none'] at h2
    exact h2
  | some a =>
    right
    rw [ha, Option.map_some'] at h
    obtain ⟨r, hr, hrn⟩ := Option.map_eq_some'.mp h.symm
    exact ⟨a, r, rfl, hr, hrn.symm⟩

/-- After the node loop, the Link of a link record is the one given by the node
records. -/
theorem linkOfRecord_buildNodes (nodes : List NodeInfo) (r : LinkInfo) :
    linkOfRecord (buildNodes {} nodes) r = initialLink nodes r := by
  unfold linkOfRecord initialLink
  rcases buildNodes_nodes_cases nodes r.from_ with ⟨h1, h2⟩ | ⟨a, ra, h1, h2, h3⟩
  · rw [h1, h2]
  · rcases buildNodes_nodes_cases nodes r.to_ with ⟨g1, g2⟩ | ⟨b, rb, g1, g2, g3⟩
    · rw [h1, h2, g1, g2]
    · simp only [h1, h2, g1, g2, h3, g3, sceneCenter_nodeOfRecord]

/-- The link list after the build, in terms of the records. -/
theorem build_links (objects : Objects) :
    (build objects).sc.links = objects.links.filterMap (initialLink objects.nodes) := by
  obtain ⟨-, -, -, h4⟩ := buildLinks_eq (buildNodes {} objects.nodes) objects.links
  have hb : build objects = buildLinks (buildNodes {} objects.nodes) objects.links := rfl
  rw [hb, h4, buildNodes_links, List.nil_append]
  apply List.filterMap_congr
  intro r _
  exact linkOfRecord_buildNodes objects.nodes r

/-- C14: the build keeps a link record exactly when both of its ids have a
registered Node, and the Link built from it has as first endpoint the position
of the registry Node for `from` plus (width / 2, height / 2), as second endpoint
that of the registry Node for `to`, where each registry Node sits at the
rectangle origin of its source record (the last record with the id and a
non-empty label); for `from = to` the two endpoints coincide. -/
theorem initial_link_geometry (objects : Objects) :
    (build objects).sc.links = objects.links.filterMap (initialLink objects.nodes)
    ∧ (∀ l ∈ (build objects).sc.links, ∃ na nb ra rb,
        (build objects).lookup l.from_ = some na ∧ (build objects).lookup l.to_ = some nb
        ∧ lastLabelled objects.nodes l.from_ = some ra
        ∧ lastLabelled objects.nodes l.to_ = some rb
        ∧ na.pos = ⟨ra.rect.x, ra.rect.y⟩ ∧ nb.pos = ⟨rb.rect.x, rb.rect.y⟩
        ∧ l.line.p1 = ⟨na.pos.x + na.rect.width / 2, na.pos.y + na.rect.height / 2⟩
        ∧ l.line.p2 = ⟨nb.pos.x + nb.rect.width / 2, nb.pos.y + nb.rect.height / 2⟩)
    ∧ (∀ l ∈ (build objects).sc.links, l.from_ = l.to_ → l.line.p1 = l.line.p2) := by
  have hl := build_links objects
  have key : ∀ l ∈ (build objects).sc.links, ∃ ra rb,
      lastLabelled objects.nodes l.from_ = some ra ∧ lastLabelled objects.nodes l.to_ = some rb
      ∧ l.line = ⟨recordCenter ra, recordCenter rb⟩ := by
    intro l hlm
    rw [hl, List.mem_filterMap] at hlm
    obtain ⟨r, -, hr⟩ := hlm
    unfold initialLink at hr
    cases h1 : lastLabelled objects.nodes r.from_ with
    | none => simp [h1] at hr
    | some ra =>
      cases h2 : lastLabelled objects.nodes r.to_ with
      | none => simp [h1, h2] at hr
      | some rb =>
        simp only [h1, h2, Option.some.injEq] at hr
        subst hr
        exact ⟨ra, rb, h1, h2, rfl⟩
  refine ⟨hl, ?_, ?_⟩
  · intro l hlm
    obtain ⟨ra, rb, h1, h2, h3⟩ := key l hlm
    refine ⟨nodeOfRecord ra, nodeOfRecord rb, ra, rb, ?_, ?_, h1, h2, rfl, rfl, ?_, ?_⟩
    · rw [build_lookup]
      unfold lastLabelled at h1
      rw [h1]
      rfl
    · rw [build_lookup]
      unfold lastLabelled at h2
      rw [h2]
      rfl
    · rw [h3]
      rfl
    · rw [h3]
      rfl
  · intro l hlm hft
    obtain ⟨ra, rb, h1, h2, h3⟩ := key l hlm
    rw [hft, h2] at h1
    rw [h3, Option.some.inj h1]

/-! ## The zoom factor -/

/-- A clamp between 0 and `hi` leaves a value of that range alone. -/
theorem clamp_of_mem (q hi : ℚ) (h0 : 0 ≤ q) (h1 : q ≤ hi) : clamp (some q) 0 hi = q := by
  unfold clamp
  simp only [not_lt.mpr h0, not_lt.mpr h1, if_false]

/-- A tenth divided by a number that is at least 1 lies between 0 and a tenth. -/
theorem tenth_div_bounds (n : ℚ) (h : 1 ≤ n) :
    0 < (1 / 10 : ℚ) / n ∧ (1 / 10 : ℚ) / n ≤ 1 / 10 := by
  have hn : 0 < n := lt_of_lt_of_le one_pos h
  refine ⟨div_pos (by norm_num) hn, ?_⟩
  rw [div_le_iff₀ hn]
  nlinarith

/-- The clamped quotient for an angle other than 0 is the quotient. -/
theorem clamp_tenthOver (angle : Int) (h : angle ≠ 0) :
    clamp (tenthOver angle) 0 (1 / 10) = (1 / 10 : ℚ) / ((|angle| : Int) : ℚ) := by
  have h1 : (1 : ℚ) ≤ ((|angle| : Int) : ℚ) := by
    have : (1 : Int) ≤ |angle| := Int.one_le_abs h
    exact_mod_cast this
  obtain ⟨hp, hle⟩ := tenth_div_bounds _ h1
  unfold tenthOver
  rw [if_neg h]
  exact clamp_of_mem _ _ (le_of_lt hp) hle

/-- The factor of a positive angle. -/
theorem factor_of_pos (angle : Int) (h : 0 < angle) :
    factor angle = 11 / 10 - (1 / 10 : ℚ) / (angle : ℚ) := by
  unfold factor
  rw [if_pos h, clamp_tenthOver angle (ne_of_gt h), abs_of_pos h]

/-- The factor of a negative angle. -/
theorem factor_of_neg (angle : Int) (h : angle < 0) :
    factor angle = 9 / 10 + (1 / 10 : ℚ) / ((|angle| : Int) : ℚ) := by
  unfold factor
  rw [if_neg (not_lt.mpr (le_of_lt h)), clamp_tenthOver angle (ne_of_lt h)]

/-- The factor of the angle 0: the quotient is infinite and the clamp gives a
tenth. -/
theorem factor_zero : factor 0 = 1 := by
  unfold factor tenthOver clamp
  norm_num

/-- Every factor lies strictly between 0.9 and 1.1. -/
theorem factor_bounds (angle : Int) : 9 / 10 < factor angle ∧ factor angle < 11 / 10 := by
  rcases lt_trichotomy angle 0 with h | h | h
  · have h1 : (1 : ℚ) ≤ ((|angle| : Int) : ℚ) := by
      have : (1 : Int) ≤ |angle| := Int.one_le_abs (ne_of_lt h)
      exact_mod_cast this
    obtain ⟨hp, hle⟩ := tenth_div_bounds _ h1
    rw [factor_of_neg angle h]
    constructor <;> linarith
  · rw [h, factor_zero]
    constructor <;> norm_num
  · have h1 : (1 : ℚ) ≤ (angle : ℚ) := by exact_mod_cast h
    obtain ⟨hp, hle⟩ := tenth_div_bounds _ h1
    rw [factor_of_pos angle h]
    constructor <;> linarith

/-! ## C15: the zoom factor -/

/-- Away from the least `int`, `std::abs` is the absolute value. -/
theorem stdAbs_of_ne (angle : Int) (h : angle ≠ intMin) : stdAbs angle = |angle| := by
  unfold stdAbs
  rw [if_neg h]

/-- Away from the least `int`, the factor computed on a 32-bit `int` is
`factor`. -/
theorem factorOfInt_eq_factor (angle : Int) (h : angle ≠ intMin) :
    factorOfInt angle = factor angle := by
  have ht : tenthOverOfInt angle = tenthOver angle := by
    unfold tenthOverOfInt tenthOver
    rw [stdAbs_of_ne angle h]
    by_cases h0 : angle = 0
    · simp [h0]
    · simp [h0]
  unfold factorOfInt factor
  rw [ht]

/-- C16: for every view state and every wheel event, with or without the
modifier, whether the scale step is applied or rejected, the transformation
anchor after the event is the one before it; with the modifier held, the scale
step (if any) is applied to the view in `AnchorUnderMouse` mode and the previous
mode is set back after it. -/
theorem anchor_is_restored (v : ZoomView) (event : QWheelEvent) :
    (v.wheelEvent event).transformationAnchor = v.transformationAnchor
    ∧ (∀ angle : Int, v.wheelEvent ⟨true, angle⟩
        = (if v.m11 * factor angle > 1 / 100 ∧ v.m11 * factor angle < 4
            then (v.setTransformationAnchor ViewportAnchor.AnchorUnderMouse).scale (factor angle)
            else v.setTransformationAnchor ViewportAnchor.AnchorUnderMouse
          ).setTransformationAnchor v.transformationAnchor) := by
  constructor
  · unfold ZoomView.wheelEvent
    cases event.control with
    | false => rfl
    | true =>
      simp only [if_true, ZoomView.setTransformationAnchor]
  · intro angle
    rfl

/-! ## C17: the order of notifications -/

/-- The notifications of two nodes with distinct ids commute on every link. -/
theorem syncLink_comm (a b : Node) (pa pb : QPointF) (h : a.id ≠ b.id) (l : Link) :
    b.syncLink pb (a.syncLink pa l) = a.syncLink pa (b.syncLink pb l) := by
  obtain ⟨line, f, t⟩ := l
  unfold Node.syncLink Link.setLine QLineF.setP1 QLineF.setP2
  by_cases h1 : f = a.id <;> by_cases h2 : f = b.id <;> by_cases h3 : t = a.id <;>
    by_cases h4 : t = b.id <;> simp_all

/-- A notification applied twice to a link is the notification applied once. -/
theorem syncLink_idem (a : Node) (p : QPointF) (l : Link) :
    a.syncLink p (a.syncLink p l) = a.syncLink p l := by
  obtain ⟨line, f, t⟩ := l
  unfold Node.syncLink Link.setLine QLineF.setP1 QLineF.setP2
  by_cases h1 : f = a.id <;> by_cases h3 : t = a.id <;> simp_all

/-- C17: for every link list and every two nodes A and B with distinct ids, A's
position-change notification followed by B's gives the same link list as B's
followed by A's; and a notification applied twice gives the same link list as
the notification applied once. -/
theorem notifications_commute (links : List Link) (a b : Node) (pa pb : QPointF)
    (h : a.id ≠ b.id) :
    b.itemChange (a.itemChange links GraphicsItemChange.ItemScenePositionHasChanged pa)
        GraphicsItemChange.ItemScenePositionHasChanged pb
      = a.itemChange (b.itemChange links GraphicsItemChange.ItemScenePositionHasChanged pb)
        GraphicsItemChange.ItemScenePositionHasChanged pa
    ∧ a.itemChange (a.itemChange links GraphicsItemChange.ItemScenePositionHasChanged pa)
        GraphicsItemChange.ItemScenePositionHasChanged pa
      = a.itemChange links GraphicsItemChange.ItemScenePositionHasChanged pa := by
  unfold Node.itemChange
  simp only [if_true, List.map_map]
  constructor
  · apply List.map_congr_left
    intro l _
    exact syncLink_comm a b pa pb h l
  · apply List.map_congr_left
    intro l _
    exact syncLink_idem a pa l

/-- C17, at nodes 1 and 2 moved to (100, 100) and (-30, 40), on a link list
with links between them in both directions, self-loops and links to a third
node. -/
theorem notifications_commute_witness :
    (Node.mk 1 ⟨0, 0, 10, 10⟩ "A" ⟨100, 100⟩).id ≠ (Node.mk 2 ⟨0, 0, 20, 6⟩ "B" ⟨-30, 40⟩).id
    ∧ (Node.mk 2 ⟨0, 0, 20, 6⟩ "B" ⟨-30, 40⟩).itemChange
        ((Node.mk 1 ⟨0, 0, 10, 10⟩ "A" ⟨100, 100⟩).itemChange mixedLinks
          GraphicsItemChange.ItemScenePositionHasChanged ⟨100, 100⟩)
        GraphicsItemChange.ItemScenePositionHasChanged ⟨-30, 40⟩
      = (Node.mk 1 ⟨0, 0, 10, 10⟩ "A" ⟨100, 100⟩).itemChange
        ((Node.mk 2 ⟨0, 0, 20, 6⟩ "B" ⟨-30, 40⟩).itemChange mixedLinks
          GraphicsItemChange.ItemScenePositionHasChanged ⟨-30, 40⟩)
        GraphicsItemChange.ItemScenePositionHasChanged ⟨100, 100⟩ :=
  ⟨by decide,
    (notifications_commute mixedLinks (Node.mk 1 ⟨0, 0, 10, 10⟩ "A" ⟨100, 100⟩)
      (Node.mk 2 ⟨0, 0, 20, 6⟩ "B" ⟨-30, 40⟩) ⟨100, 100⟩ ⟨-30, 40⟩ (by decide)).1⟩

/-! ## C18: wheel input of magnitude 0 or 1 -/

/-- A view with scale multiplied by 1, or left alone, is the same view. -/
theorem wheelEvent_of_factor_one (v : ZoomView) (angle : Int) (h : factor angle = 1) :
    v.wheelEvent ⟨true, angle⟩ = v := by
  obtain ⟨m, a⟩ := v
  simp only [ZoomView.wheelEvent, ZoomView.setTransformationAnchor, ZoomView.scale, h, mul_one,
    if_true, ite_self]

/-- C18: for the angle 0 the quotient 0.1 / |angle| is infinite, the clamp to
[0, 0.1] turns it into 0.1, the factor is exactly 1 and a wheel event with the
modifier held leaves the view as it was; the factor is also exactly 1, and the
view unchanged, for the angles 1 and −1. -/
theorem zero_magnitude_is_noop :
    tenthOver 0 = none
    ∧ clamp (tenthOver 0) 0 (1 / 10) = 1 / 10
    ∧ factor 0 = 1 ∧ factor 1 = 1 ∧ factor (-1) = 1
    ∧ (∀ v : ZoomView, v.wheelEvent ⟨true, 0⟩ = v ∧ v.wheelEvent ⟨true, 1⟩ = v
        ∧ v.wheelEvent ⟨true, -1⟩ = v) := by
  have h1 : factor 1 = 1 := by
    rw [factor_of_pos 1 (by norm_num)]
    norm_num
  have h2 : factor (-1) = 1 := by
    rw [factor_of_neg (-1) (by norm_num)]
    norm_num
  refine ⟨rfl, rfl, factor_zero, h1, h2, ?_⟩
  intro v
  exact ⟨wheelEvent_of_factor_one v 0 factor_zero, wheelEvent_of_factor_one v 1 h1,
    wheelEvent_of_factor_one v (-1) h2⟩

/-! ## C19: a zoom-in step followed by the opposite zoom-out step -/

/-- The product of the factors of `k` and `−k`. -/
theorem factor_mul_factor_neg (k : Int) (hk : 1 ≤ k) :
    factor k * factor (-k) = 1 - ((1 / 10 : ℚ) - (1 / 10) / (k : ℚ)) ^ 2 := by
  have hpos : 0 < k := lt_of_lt_of_le one_pos hk
  have hneg : -k < 0 := by omega
  have habs : |(-k)| = k := by rw [abs_neg, abs_of_pos hpos]
  rw [factor_of_pos k hpos, factor_of_neg (-k) hneg, habs]
  ring

/-- C19: for every integer k ≥ 2 the product factor(k) × factor(−k) equals
1 − (0.1 − 0.1 / k)² and is less than 1; for k = 1 it is 1; and when a wheel
event of angle k ≥ 1 and then one of angle −k are both applied (each prospective
scale strictly between 0.01 and 4), the scale ends as the start scale times
that product, strictly smaller than the start scale for k ≥ 2 and equal to it
only for k = 1. -/
theorem zoom_in_then_out_shrinks :
    (∀ k : Int, 2 ≤ k →
        factor k * factor (-k) = 1 - ((1 / 10 : ℚ) - (1 / 10) / (k : ℚ)) ^ 2
        ∧ factor k * factor (-k) < 1)
    ∧ factor 1 * factor (-1) = 1
    ∧ (∀ (v : ZoomView) (k : Int), 1 ≤ k →
        (1 / 100 < v.m11 * factor k ∧ v.m11 * factor k < 4) →
        (1 / 100 < v.m11 * factor k * factor (-k) ∧ v.m11 * factor k * factor (-k) < 4) →
        ((v.wheelEvent ⟨true, k⟩).wheelEvent ⟨true, -k⟩).m11 = v.m11 * (factor k * factor (-k))
        ∧ (2 ≤ k → ((v.wheelEvent ⟨true, k⟩).wheelEvent ⟨true, -k⟩).m11 < v.m11)
        ∧ (((v.wheelEvent ⟨true, k⟩).wheelEvent ⟨true, -k⟩).m11 = v.m11 ↔ k = 1)) := by
  have hlt : ∀ k : Int, 2 ≤ k → factor k * factor (-k) < 1 := by
    intro k hk
    rw [factor_mul_factor_neg k (by omega)]
    have hk2 : (2 : ℚ) ≤ (k : ℚ) := by exact_mod_cast hk
    have hk0 : (0 : ℚ) < (k : ℚ) := by linarith
    have hdiv : (1 / 10 : ℚ) / (k : ℚ) < 1 / 10 := by
      rw [div_lt_iff₀ hk0]
      nlinarith
    have hd : (0 : ℚ) < (1 / 10 : ℚ) - (1 / 10) / (k : ℚ) := by linarith
    have := pow_pos hd 2
    linarith
  have hone : factor 1 * factor (-1) = 1 := by
    rw [factor_mul_factor_neg 1 (le_refl 1)]
    norm_num
  refine ⟨fun k hk => ⟨factor_mul_factor_neg k (by omega), hlt k hk⟩, hone, ?_⟩
  intro v k hk h1 h2
  have hm : ((v.wheelEvent ⟨true, k⟩).wheelEvent ⟨true, -k⟩).m11
      = v.m11 * (factor k * factor (-k)) := by
    have e1 : (v.wheelEvent ⟨true, k⟩).m11 = v.m11 * factor k := by
      rw [wheelEvent_m11, if_pos ⟨h1.1, h1.2⟩]
    rw [wheelEvent_m11, e1, if_pos ⟨h2.1, h2.2⟩]
    ring
  have hfk : 0 < factor k := by
    have := (factor_bounds k).1
    linarith
  have hv : 0 < v.m11 := by
    by_contra hc
    have hle : v.m11 ≤ 0 := not_lt.mp hc
    have : v.m11 * factor k ≤ 0 := mul_nonpos_of_nonpos_of_nonneg hle (le_of_lt hfk)
    linarith [h1.1]
  have hshrink : 2 ≤ k → v.m11 * (factor k * factor (-k)) < v.m11 := by
    intro hk2
    have := hlt k hk2
    nlinarith
  refine ⟨hm, fun hk2 => by rw [hm]; exact hshrink hk2, ?_⟩
  rw [hm]
  constructor
  · intro he
    by_contra hne
    have hk2 : 2 ≤ k := by omega
    exact absurd he (ne_of_lt (hshrink hk2))
  · intro he
    rw [he, hone, mul_one]

/-! ## Evaluations on concrete inputs -/

/-- The records of `sampleRoot`: the two node children give node records in
document order, the link child gives a link record, and the comment, the text
node and the element of another name give nothing. -/
theorem collect_sampleRoot :
    (collect sampleRoot).nodes.map (fun n => (n.id, n.label)) = [(1, "A"), (2, "B")]
    ∧ (collect sampleRoot).links = [⟨1, 2⟩] := by
  decide

/-- One notch of a wheel (angle 120) in and one notch out, from scale 1: the
factors are 1319/1200 and 1081/1200, both steps are applied, and the scale ends
below 1. -/
theorem zoom_notch_in_and_out :
    factor 120 = 1319 / 1200 ∧ factor (-120) = 1081 / 1200
    ∧ ((ZoomView.mk 1 ViewportAnchor.AnchorViewCenter).wheelEvent ⟨true, 120⟩).m11 = 1319 / 1200
    ∧ (((ZoomView.mk 1 ViewportAnchor.AnchorViewCenter).wheelEvent ⟨true, 120⟩).wheelEvent
        ⟨true, -120⟩).m11 = 1425839 / 1440000 := by
  have h1 : factor 120 = 1319 / 1200 := by
    rw [factor_of_pos 120 (by norm_num)]
    norm_num
  have h2 : factor (-120) = 1081 / 1200 := by
    rw [factor_of_neg (-120) (by norm_num)]
    norm_num
  have h3 : ((ZoomView.mk 1 ViewportAnchor.AnchorViewCenter).wheelEvent ⟨true, 120⟩).m11
      = 1319 / 1200 := by
    rw [wheelEvent_m11, h1]
    norm_num
  refine ⟨h1, h2, h3, ?_⟩
  rw [wheelEvent_m11, h3, h2]
  norm_num

/-- A step that would take the scale to 4 or beyond is rejected: at scale 3.9
an event of angle 120 leaves the scale at 3.9. -/
theorem zoom_rejected_at_upper_bound :
    ((ZoomView.mk (39 / 10) ViewportAnchor.AnchorViewCenter).wheelEvent ⟨true, 120⟩).m11
      = 39 / 10 := by
  have h1 : factor 120 = 1319 / 1200 := by
    rw [factor_of_pos 120 (by norm_num)]
    norm_num
  rw [wheelEvent_m11, h1]
  norm_num

/-- The factor computed on a 32-bit `int` for one notch of a wheel in either
direction, and for the greatest and the second least `int`. -/
theorem factorOfInt_values :
    factorOfInt 120 = 1319 / 1200 ∧ factorOfInt (-120) = 1081 / 1200
    ∧ factorOfInt 2147483647 = 11 / 10 - (1 / 10) / 2147483647
    ∧ factorOfInt (-2147483647) = 9 / 10 + (1 / 10) / 2147483647 := by
  have hne : ∀ a : Int, -2147483648 < a → a ≠ intMin := by
    intro a ha he
    rw [he] at ha
    exact absurd ha (by unfold intMin; norm_num)
  refine ⟨?_, ?_, ?_, ?_⟩
  · rw [factorOfInt_eq_factor 120 (hne 120 (by norm_num)), factor_of_pos 120 (by norm_num)]
    norm_num
  · rw [factorOfInt_eq_factor (-120) (hne (-120) (by norm_num)),
      factor_of_neg (-120) (by norm_num)]
    norm_num
  · rw [factorOfInt_eq_factor _ (hne 2147483647 (by norm_num)),
      factor_of_pos 2147483647 (by norm_num)]
    norm_num
  · rw [factorOfInt_eq_factor _ (hne (-2147483647) (by norm_num)),
      factor_of_neg (-2147483647) (by norm_num)]
    norm_num

end Mindmap
